import Mathlib

/-!
Verification of the dapper ORM core (type registry, value quoting, statement
generation, parameter substitution, query execution and batched association
resolution) against its specification.  Go values and types are shallowly
embedded as inductive types; Go `panic` is modelled as `Option.none` (for
`Quote`) or a dedicated error constructor (`DapperErr.goPanic`); fallible
operations return `Except`.
-/

namespace Dapper

/-- The single-quote character (code 39), written via `Char.ofNat`. -/
def sqChar : Char := Char.ofNat 39

/-- The single-quote as a one-character string. -/
def sq : String := String.singleton sqChar

/-- Backslash-escaping pass of `QuoteString` (src/unnamed/part_003, line 164):
`reBackslash.ReplaceAllString(s, "\\\\")` doubles every backslash. -/
def escBackslash : List Char → List Char
  | [] => []
  | c :: r => (if c = '\\' then ['\\', '\\'] else [c]) ++ escBackslash r

/-- Quote-escaping pass of `QuoteString` (src/unnamed/part_003, line 165):
`reSingleQuote.ReplaceAllString(q, "\\'")` puts a backslash before every
single quote. -/
def escSingleQuote : List Char → List Char
  | [] => []
  | c :: r => (if c = sqChar then ['\\', sqChar] else [c]) ++ escSingleQuote r

/-- `QuoteString` from src/unnamed/part_003 (also the MySQL / PostgreSQL
dialect `QuoteString` of src/dialect.go): escape backslashes, then escape
single quotes with a backslash. -/
def QuoteStringGo (s : String) : String :=
  String.mk (escSingleQuote (escBackslash s.data))

/-- A Go `interface{}` value as far as the quoting and execution engine
inspects it.  Constructor per type case arm of `Quote`.  Pointer types carry
`Option` (`none` = nil pointer); `float32/float64` carry the string produced
by Go's `%f` formatting and `time.Time` carries the string produced by
`Format("2006-01-02 15:04:05")`, since the engine only ever renders these. -/
inductive GoValue where
  | null
  | str (s : String)
  | strPtr (p : Option String)
  | int (n : Int)
  | int8 (n : Int)
  | int16 (n : Int)
  | int32 (n : Int)
  | int64 (n : Int)
  | uint (n : Nat)
  | uint8 (n : Nat)
  | uint16 (n : Nat)
  | uint32 (n : Nat)
  | uint64 (n : Nat)
  | intPtr (p : Option Int)
  | int8Ptr (p : Option Int)
  | int16Ptr (p : Option Int)
  | int32Ptr (p : Option Int)
  | int64Ptr (p : Option Int)
  | uintPtr (p : Option Nat)
  | uint8Ptr (p : Option Nat)
  | uint16Ptr (p : Option Nat)
  | uint32Ptr (p : Option Nat)
  | uint64Ptr (p : Option Nat)
  | float32 (render : String)
  | float64 (render : String)
  | float32Ptr (p : Option String)
  | float64Ptr (p : Option String)
  | bool (b : Bool)
  | boolPtr (p : Option Bool)
  | time (render : String)
  | timePtr (p : Option String)
deriving DecidableEq, Repr

/-- `Quote` from src/unnamed/part_003 (lines 68-161), the variant the query
engine in src/dapper.go calls.  `none` models the final
`panic("SQL quoting for type ... is not supported")`: the case list covers
`string, int, int16, int32, int64, uint, uint16, uint32, uint64`, their listed
pointer forms, floats, bools and `time.Time` — but not `int8`, `uint8`,
`*int8`, `*uint8` or `*uint`, which all fall through to the panic. -/
def Quote : GoValue → Option String
  | .null => some "NULL"
  | .str s => some (sq ++ QuoteStringGo s ++ sq)
  | .strPtr (some s) => some (sq ++ QuoteStringGo s ++ sq)
  | .strPtr none => some "NULL"
  | .int n => some (toString n)
  | .int16 n => some (toString n)
  | .int32 n => some (toString n)
  | .int64 n => some (toString n)
  | .uint n => some (toString n)
  | .uint16 n => some (toString n)
  | .uint32 n => some (toString n)
  | .uint64 n => some (toString n)
  | .intPtr (some n) => some (toString n)
  | .intPtr none => some "NULL"
  | .int16Ptr (some n) => some (toString n)
  | .int16Ptr none => some "NULL"
  | .int32Ptr (some n) => some (toString n)
  | .int32Ptr none => some "NULL"
  | .int64Ptr (some n) => some (toString n)
  | .int64Ptr none => some "NULL"
  | .uint16Ptr (some n) => some (toString n)
  | .uint16Ptr none => some "NULL"
  | .uint32Ptr (some n) => some (toString n)
  | .uint32Ptr none => some "NULL"
  | .uint64Ptr (some n) => some (toString n)
  | .uint64Ptr none => some "NULL"
  | .float32 r => some r
  | .float64 r => some r
  | .float32Ptr (some r) => some r
  | .float32Ptr none => some "NULL"
  | .float64Ptr (some r) => some r
  | .float64Ptr none => some "NULL"
  | .bool b => some (if b then "1" else "0")
  | .boolPtr (some b) => some (if b then "1" else "0")
  | .boolPtr none => some "NULL"
  | .time r => some (sq ++ QuoteStringGo r ++ sq)
  | .timePtr (some r) => some (sq ++ QuoteStringGo r ++ sq)
  | .timePtr none => some "NULL"
  | _ => none

/-- `Quote(dialect, val)` from src/quote.go (lines 9-107), parametrised by the
dialect's `QuoteString`.  Its case list additionally covers `uint8` and
`*uint8`, but still not `int8`, `*int8` or `*uint`. -/
def QuoteDialect (qs : String → String) : GoValue → Option String
  | .null => some "NULL"
  | .str s => some (sq ++ qs s ++ sq)
  | .strPtr (some s) => some (sq ++ qs s ++ sq)
  | .strPtr none => some "NULL"
  | .int n => some (toString n)
  | .int16 n => some (toString n)
  | .int32 n => some (toString n)
  | .int64 n => some (toString n)
  | .uint n => some (toString n)
  | .uint8 n => some (toString n)
  | .uint16 n => some (toString n)
  | .uint32 n => some (toString n)
  | .uint64 n => some (toString n)
  | .intPtr (some n) => some (toString n)
  | .intPtr none => some "NULL"
  | .int16Ptr (some n) => some (toString n)
  | .int16Ptr none => some "NULL"
  | .int32Ptr (some n) => some (toString n)
  | .int32Ptr none => some "NULL"
  | .int64Ptr (some n) => some (toString n)
  | .int64Ptr none => some "NULL"
  | .uint8Ptr (some n) => some (toString n)
  | .uint8Ptr none => some "NULL"
  | .uint16Ptr (some n) => some (toString n)
  | .uint16Ptr none => some "NULL"
  | .uint32Ptr (some n) => some (toString n)
  | .uint32Ptr none => some "NULL"
  | .uint64Ptr (some n) => some (toString n)
  | .uint64Ptr none => some "NULL"
  | .float32 r => some r
  | .float64 r => some r
  | .float32Ptr (some r) => some r
  | .float32Ptr none => some "NULL"
  | .float64Ptr (some r) => some r
  | .float64Ptr none => some "NULL"
  | .bool b => some (if b then "1" else "0")
  | .boolPtr (some b) => some (if b then "1" else "0")
  | .boolPtr none => some "NULL"
  | .time r => some (sq ++ qs r ++ sq)
  | .timePtr (some r) => some (sq ++ qs r ++ sq)
  | .timePtr none => some "NULL"
  | _ => none

/-- The kinds for which the engine's `Quote` (part_003) has a case arm. -/
def quoteSupported : GoValue → Bool
  | .int8 _ => false
  | .uint8 _ => false
  | .int8Ptr _ => false
  | .uint8Ptr _ => false
  | .uintPtr _ => false
  | _ => true

/-- The kinds for which the dialect `Quote` (src/quote.go) has a case arm. -/
def quoteDialectSupported : GoValue → Bool
  | .int8 _ => false
  | .int8Ptr _ => false
  | .uintPtr _ => false
  | _ => true

/-- Values that are a nil interface or a nil pointer. -/
def isNilValue : GoValue → Bool
  | .null => true
  | .strPtr none => true
  | .intPtr none => true
  | .int8Ptr none => true
  | .int16Ptr none => true
  | .int32Ptr none => true
  | .int64Ptr none => true
  | .uintPtr none => true
  | .uint8Ptr none => true
  | .uint16Ptr none => true
  | .uint32Ptr none => true
  | .uint64Ptr none => true
  | .float32Ptr none => true
  | .float64Ptr none => true
  | .boolPtr none => true
  | .timePtr none => true
  | _ => false

/-- Structural prefix test on character lists (first argument is the
prefix). -/
def hasPrefixL : List Char → List Char → Bool
  | [], _ => true
  | _ :: _, [] => false
  | p :: ps, c :: cs => if p = c then hasPrefixL ps cs else false

/-- Go's `strings.HasPrefix(s, pre)`. -/
def goHasPrefix (s pre : String) : Bool := hasPrefixL pre.data s.data

/-! ## Go string splitting (strings.Split / strings.SplitN with n = 2) -/

/-- Go's `strings.Split(s, sep)` for a one-character separator, on `List Char`:
splits at every occurrence of `sep`; `Split("", sep) = [""]`. -/
def splitChar (sep : Char) : List Char → List (List Char)
  | [] => [[]]
  | c :: r =>
    if c = sep then [] :: splitChar sep r
    else
      match splitChar sep r with
      | [] => [[c]]
      | g :: gs => (c :: g) :: gs

/-- Go's `strings.Split(s, sep)` for a one-character separator, on `String`. -/
def goSplit (sep : Char) (s : String) : List String :=
  (splitChar sep s.data).map String.mk

/-- Go's `strings.SplitN(s, sep, 2)` for a one-character separator: at most two
pieces, split at the first occurrence of `sep`. -/
def goSplitN2 (sep : Char) (s : String) : List String :=
  match goSplit sep s with
  | [] => []
  | [a] => [a]
  | a :: rest => [a, String.intercalate (String.singleton sep) rest]

/-! ## The type registry (src/unnamed/part_005) -/

/-- The error values the engine can produce.  `mappingError` are the
`errors.New(...)` values of `AddType`; `noTableName` / `noPrimaryKey` are
`ErrNoTableName` / `ErrNoPrimaryKey` (src/dapper.go lines 12-15); `errNoRows`
is `sql.ErrNoRows`; `wrongType` is `ErrWrongType`; `goPanic` models a Go
runtime panic; `otherError` covers the remaining `errors.New` values. -/
inductive DapperErr where
  | mappingError (msg : String)
  | noTableName
  | noPrimaryKey
  | errNoRows
  | wrongType
  | goPanic (msg : String)
  | otherError (msg : String)
deriving DecidableEq, Repr

/-- A Go type as far as `AddType` inspects it.  `strukt` carries the fields as
`(name, dapper tag, type)` triples in declaration order; `basic` stands for
any other non-container kind (int64, string, ...). -/
inductive GoType where
  | strukt (fields : List (String × String × GoType))
  | ptr (elem : GoType)
  | slice (elem : GoType)
  | array (elem : GoType)
  | chanT
  | funcT
  | interfaceT
  | mapT
  | unsafePointerT
  | basic (name : String)

mutual

/-- Structural equality test on `GoType` (Go's `reflect.Type` identity). -/
def GoType.beq : GoType → GoType → Bool
  | .strukt fs, .strukt gs => beqFieldList fs gs
  | .ptr a, .ptr b => GoType.beq a b
  | .slice a, .slice b => GoType.beq a b
  | .array a, .array b => GoType.beq a b
  | .chanT, .chanT => true
  | .funcT, .funcT => true
  | .interfaceT, .interfaceT => true
  | .mapT, .mapT => true
  | .unsafePointerT, .unsafePointerT => true
  | .basic a, .basic b => a == b
  | _, _ => false

/-- Equality test on field lists, component of `GoType.beq`. -/
def beqFieldList : List (String × String × GoType) → List (String × String × GoType) → Bool
  | [], [] => true
  | (n₁, t₁, ty₁) :: r₁, (n₂, t₂, ty₂) :: r₂ =>
    n₁ == n₂ && t₁ == t₂ && GoType.beq ty₁ ty₂ && beqFieldList r₁ r₂
  | _, _ => false

end

instance : BEq GoType := ⟨GoType.beq⟩

mutual

theorem GoType.beq_refl : ∀ a : GoType, GoType.beq a a = true
  | .strukt fs => beqFieldList_refl fs
  | .ptr a => GoType.beq_refl a
  | .slice a => GoType.beq_refl a
  | .array a => GoType.beq_refl a
  | .chanT => rfl
  | .funcT => rfl
  | .interfaceT => rfl
  | .mapT => rfl
  | .unsafePointerT => rfl
  | .basic a => by simp [GoType.beq]

theorem beqFieldList_refl : ∀ fs : List (String × String × GoType), beqFieldList fs fs = true
  | [] => rfl
  | (n, t, ty) :: r => by
    simp [beqFieldList, GoType.beq_refl ty, beqFieldList_refl r]

end

/-- The container-unwrapping loop at the top of `AddType` (part_005 lines
88-95): while the kind is Array, Ptr or Slice, take the element type. -/
def baseType : GoType → GoType
  | .ptr t => baseType t
  | .slice t => baseType t
  | .array t => baseType t
  | t => t

/-- The field kinds skipped by the `switch field.Type.Kind()` with `continue`
(part_005 lines 121-130): Chan, Func, Interface, Map, UnsafePointer. -/
def skippedKind : GoType → Bool
  | .chanT => true
  | .funcT => true
  | .interfaceT => true
  | .mapT => true
  | .unsafePointerT => true
  | _ => false

/-- `reflect.Type.Elem()`: element type of a pointer, slice or array;
panics (modelled as an error) on other kinds reachable here. -/
def goElem : GoType → Except DapperErr GoType
  | .ptr t => .ok t
  | .slice t => .ok t
  | .array t => .ok t
  | _ => .error (.goPanic "reflect: Elem of invalid type")

/-- `fieldInfo` (part_005 lines 45-58). -/
structure FieldInfo where
  fieldName : String
  columnName : String
  typ : GoType
  isPrimaryKey : Bool
  isAutoIncrement : Bool
  isTransient : Bool

/-- `oneToOneInfo` (part_005 lines 61-70). -/
structure OneToOneInfo where
  fieldName : String
  selfType : GoType
  targetType : GoType
  foreignKeyField : String

/-- `oneToManyInfo` (part_005 lines 73-82). -/
structure OneToManyInfo where
  fieldName : String
  sliceType : GoType
  elemType : GoType
  foreignKeyField : String

/-- `typeInfo` (part_005 lines 22-41).  The Go maps `FieldInfos`,
`ColumnInfos`, `OneToOneInfos`, `OneToManyInfos` are modelled as the ordered
`fieldInfos` list plus key-overwriting association lists; map reads are the
derived lookups below. -/
structure TypeInfo where
  typ : GoType
  tableName : String
  fieldNames : List String
  fieldInfos : List FieldInfo
  columnNames : List String
  assocFieldNames : List String
  oneToOneInfos : List (String × OneToOneInfo)
  oneToManyInfos : List (String × OneToManyInfo)

/-- Go map read `m[k]` for a string-keyed map modelled as a key-unique
association list. -/
def alookup {α : Type} (l : List (String × α)) (k : String) : Option α :=
  (l.find? (fun p => p.1 == k)).map Prod.snd

/-- Go map write `m[k] = v`: overwrite in place if the key is present,
otherwise add the binding. -/
def aupdate {α : Type} (l : List (String × α)) (k : String) (v : α) : List (String × α) :=
  if (l.find? (fun p => p.1 == k)).isSome then
    l.map (fun p => if p.1 == k then (k, v) else p)
  else l ++ [(k, v)]

/-- Read of the `ColumnInfos` map: the last non-transient field written under
column name `c` (part_005 line 216 writes in field order, overwriting). -/
def TypeInfo.columnInfo (ti : TypeInfo) (c : String) : Option FieldInfo :=
  (ti.fieldInfos.filter (fun fi => !fi.isTransient && fi.columnName == c)).getLast?

/-- Read of the `FieldInfos` map: the last field written under field name `f`
(field names are unique in a Go struct, so this is the only one). -/
def TypeInfo.fieldInfo (ti : TypeInfo) (f : String) : Option FieldInfo :=
  (ti.fieldInfos.filter (fun fi => fi.fieldName == f)).getLast?

/-- `GetPrimaryKey` (part_005 lines 251-258): scan `FieldInfos` for a field
with `IsPrimaryKey`.  The Go scan iterates the map in unspecified order; we
scan in field order, which agrees whenever at most one field is marked. -/
def TypeInfo.getPrimaryKey (ti : TypeInfo) : Option FieldInfo :=
  ti.fieldInfos.find? (fun fi => fi.isPrimaryKey)

/-- `GetAutoIncrement` (part_005 lines 240-247), same convention. -/
def TypeInfo.getAutoIncrement (ti : TypeInfo) : Option FieldInfo :=
  ti.fieldInfos.find? (fun fi => fi.isAutoIncrement)

/-- One step of the modifier loop `for _, t := range tags[1:]` (part_005 lines
189-201): `primarykey`/`pk` and `autoincrement`/`serial` set their flags; a
token with prefix `table` is split at the first `=` and its second part
becomes the table name — when the token contains no `=`, `tableAndName[1]`
is an index out of range, a Go runtime panic. -/
def applyModifier (st : FieldInfo × Option String) (t : String) :
    Except DapperErr (FieldInfo × Option String) :=
  let fi := st.1
  let fi := if t == "primarykey" || t == "pk" then { fi with isPrimaryKey := true } else fi
  let fi := if t == "autoincrement" || t == "serial" then { fi with isAutoIncrement := true } else fi
  if goHasPrefix t "table" then
    match goSplitN2 '=' t with
    | [_, v] => .ok (fi, some v)
    | _ => .error (.goPanic "runtime error: index out of range")
  else .ok (fi, st.2)

/-- The column branch of the tag inspection in `AddType` (part_005 lines
176-207 and the `else` at 204-207): an empty tag maps the field name as
column name; otherwise the tag is split at commas, a first token `-` marks
the field transient with empty column name, any other first token is the
column name, and the remaining tokens run through `applyModifier`.  Returns
the field descriptor and the table-name update (if a `table=` token set
one). -/
def parseColumnTag (fieldName : String) (typ : GoType) (tag : String) :
    Except DapperErr (FieldInfo × Option String) :=
  if tag == "" then
    .ok (⟨fieldName, fieldName, typ, false, false, false⟩, none)
  else
    match goSplit ',' tag with
    | [] => .ok (⟨fieldName, "", typ, false, false, false⟩, none)
    | t0 :: mods =>
      let fi0 : FieldInfo :=
        if t0 == "-" then ⟨fieldName, "", typ, false, false, true⟩
        else ⟨fieldName, t0, typ, false, false, false⟩
      mods.foldlM applyModifier (fi0, none)

/-- One iteration of the field loop of `AddType` (part_005 lines 117-233):
skip unsupported kinds; a tag with prefix `oneToMany`/`oneToOne` builds an
association descriptor (malformed specifications are a mapping error); any
other tag (or no tag) builds a field descriptor via `parseColumnTag` and is
appended to the name/column lists. -/
def addTypeField (gotype : GoType) (ti : TypeInfo) (f : String × String × GoType) :
    Except DapperErr TypeInfo :=
  let name := f.1
  let tag := f.2.1
  let ftyp := f.2.2
  if skippedKind ftyp then .ok ti
  else if tag != "" && goHasPrefix tag "oneToMany" then
    match goSplitN2 '=' tag with
    | [_, fk] =>
      (goElem ftyp).map (fun elemT =>
        { ti with assocFieldNames := ti.assocFieldNames ++ [name],
                  oneToManyInfos := aupdate ti.oneToManyInfos name ⟨name, ftyp, elemT, fk⟩ })
    | _ => .error (.mappingError
        ("invalid oneToMany specification for field " ++ name ++ ": " ++ tag))
  else if tag != "" && goHasPrefix tag "oneToOne" then
    match goSplitN2 '=' tag with
    | [_, fk] =>
      .ok { ti with assocFieldNames := ti.assocFieldNames ++ [name],
                    oneToOneInfos := aupdate ti.oneToOneInfos name ⟨name, gotype, ftyp, fk⟩ }
    | _ => .error (.mappingError
        ("invalid oneToOne specification for field " ++ name ++ ": " ++ tag))
  else
    (parseColumnTag name ftyp tag).map (fun (fi, tblUpd) =>
      { ti with
        tableName := tblUpd.getD ti.tableName,
        fieldNames := ti.fieldNames ++ [fi.fieldName],
        fieldInfos := ti.fieldInfos ++ [fi],
        columnNames := if fi.isTransient then ti.columnNames
                       else ti.columnNames ++ [fi.columnName] })

/-- The process-wide `typeCache`, keyed by the (base) `reflect.Type`. -/
abbrev TypeCache := List (GoType × TypeInfo)

/-- The fresh `typeInfo` literal of part_005 lines 103-113. -/
def emptyTypeInfo (gotype : GoType) : TypeInfo :=
  ⟨gotype, "", [], [], [], [], [], []⟩

/-- `AddType` (part_005 lines 85-236): unwrap Array/Ptr/Slice containers to
the base type, return the cached descriptor if present, otherwise inspect
every struct field.  `typeCache[gotype] = ti` runs at the end of each loop
iteration, so the descriptor is cached iff at least one field completes an
iteration (fields of skipped kinds `continue` before the write); calling
`NumField` on a non-struct base type is a Go panic.  The Go cache state
after a failed `AddType` is not modelled (the error is returned as-is). -/
def addType (gotype : GoType) (cache : TypeCache) : Except DapperErr (TypeInfo × TypeCache) :=
  let base := baseType gotype
  match (cache.find? (fun p => GoType.beq p.1 base)).map Prod.snd with
  | some ti => .ok (ti, cache)
  | none =>
    match base with
    | .strukt fields =>
      (fields.foldlM (addTypeField base) (emptyTypeInfo base)).map (fun ti =>
        (ti, if fields.any (fun f => !skippedKind f.2.2) then (base, ti) :: cache else cache))
    | _ => .error (.goPanic "reflect: NumField of non-struct type")

/-- `AddType` against an empty cache, as a pure descriptor builder (the cache
is write-through of this same computation). -/
def describeType (gotype : GoType) : Except DapperErr TypeInfo :=
  (addType gotype []).map Prod.fst

/-! ## Entities, row scanning, statement generation (src/dapper.go) -/

/-- A struct instance, read through `FieldByName`: a map from field name to
its current value.  `reflect.New` zero values are represented by the
distinguished `GoValue.null`. -/
abbrev Entity := String → GoValue

/-- The zero-valued entity produced by `reflect.New(gotype)`. -/
def zeroEntity : Entity := fun _ => GoValue.null

/-- Write one field of an entity. -/
def entSet (e : Entity) (f : String) (v : GoValue) : Entity :=
  fun g => if g == f then v else e g

/-- A database result row with column-name introspection: the column names
in result order, each with the value scanned for it. -/
abbrev Row := List (String × GoValue)

/-- The column-reconciliation scan shared by `Single`, `Get.Do` and `All`
(src/dapper.go lines 260-292, 158-184, 370-399): for each returned column
name look it up in `ColumnInfos`; matched columns are scanned into the
corresponding field, unmatched columns go to a discarded placeholder. -/
def scanRow (ti : TypeInfo) (row : Row) : Entity :=
  row.foldl (fun e cv =>
    match ti.columnInfo cv.1 with
    | some fi => entSet e fi.fieldName cv.2
    | none => e) zeroEntity

/-- `Quote` as used by the SQL-generating paths: its panic becomes a
propagated `goPanic`. -/
def quoteE (v : GoValue) : Except DapperErr String :=
  match Quote v with
  | some s => .ok s
  | none => .error (.goPanic "SQL quoting for type is not supported")

/-- `generateInsertSql` (src/dapper.go lines 746-773): requires a table name;
walks `ColumnNames` in order, keeping each column whose field satisfies
`!fi.IsAutoIncrement || fi.IsTransient`, and emits
`INSERT INTO <table> (<cols>) VALUES (<quoted vals>)`. -/
def generateInsertSql (ti : TypeInfo) (entity : Entity) : Except DapperErr String :=
  if ti.tableName == "" then .error .noTableName
  else
    (ti.columnNames.foldlM (fun (acc : List String × List String) cname =>
      match ti.columnInfo cname with
      | some fi =>
        if !fi.isAutoIncrement || fi.isTransient then
          (quoteE (entity fi.fieldName)).map (fun q => (acc.1 ++ [cname], acc.2 ++ [q]))
        else .ok acc
      | none => .ok acc) ([], [])).map (fun (acc : List String × List String) =>
      "INSERT INTO " ++ QuoteStringGo ti.tableName ++ " (" ++
        String.intercalate ", " acc.1 ++ ") VALUES (" ++
        String.intercalate ", " acc.2 ++ ")")

/-- `generateUpdateSql` (src/dapper.go lines 827-863): requires a table name,
then a primary key; walks `ColumnNames` keeping fields with
`!fi.IsPrimaryKey || fi.IsTransient` as `col=val` pairs and emits
`UPDATE <table> SET <pairs> WHERE <pkcol>=<pkval>`. -/
def generateUpdateSql (ti : TypeInfo) (entity : Entity) : Except DapperErr String :=
  if ti.tableName == "" then .error .noTableName
  else
    match ti.getPrimaryKey with
    | none => .error .noPrimaryKey
    | some pk =>
      (ti.columnNames.foldlM (fun (acc : List String) cname =>
        match ti.columnInfo cname with
        | some fi =>
          if !fi.isPrimaryKey || fi.isTransient then
            (quoteE (entity fi.fieldName)).map (fun q => acc ++ [cname ++ "=" ++ q])
          else .ok acc
        | none => .ok acc) []).bind (fun pairs =>
        (quoteE (entity pk.fieldName)).map (fun pkq =>
          "UPDATE " ++ QuoteStringGo ti.tableName ++ " SET " ++
            String.intercalate ", " pairs ++ " WHERE " ++ pk.columnName ++ "=" ++ pkq))

/-- `generateDeleteSql` (src/dapper.go lines 916-937). -/
def generateDeleteSql (ti : TypeInfo) (entity : Entity) : Except DapperErr String :=
  if ti.tableName == "" then .error .noTableName
  else
    match ti.getPrimaryKey with
    | none => .error .noPrimaryKey
    | some pk =>
      (quoteE (entity pk.fieldName)).map (fun pkq =>
        "DELETE FROM " ++ QuoteStringGo ti.tableName ++ " WHERE " ++
          pk.columnName ++ "=" ++ pkq)

/-- `Session.insert` (src/dapper.go lines 698-737) up to execution: the SQL
is generated first and `exec` runs only on success; the result is the list
of statements handed to the database handle (empty on error by
construction). -/
def insertOp (ti : TypeInfo) (entity : Entity) : Except DapperErr (List String) :=
  (generateInsertSql ti entity).map (fun s => [s])

/-- `Session.update` (src/dapper.go lines 789-825) up to execution. -/
def updateOp (ti : TypeInfo) (entity : Entity) : Except DapperErr (List String) :=
  (generateUpdateSql ti entity).map (fun s => [s])

/-- `Session.delete` (src/dapper.go lines 878-914) up to execution. -/
def deleteOp (ti : TypeInfo) (entity : Entity) : Except DapperErr (List String) :=
  (generateDeleteSql ti entity).map (fun s => [s])

/-! ## Parameter substitution (src/dapper.go lines 226-245, 337-356, 630-649) -/

/-- Go's `strings.Replace(s, pat, rep, -1)` on character lists: scan left to
right, replacing each (non-overlapping, leftmost) occurrence of `pat` by
`rep`.  Go special-cases an empty pattern (insertion between runes); that
case is never exercised here (`pat` is always `":" ++ name`) and is modelled
as the identity. -/
def replaceAllL (pat rep : List Char) (s : List Char) : List Char :=
  match s with
  | [] => []
  | c :: rest =>
    if h : pat ≠ [] ∧ pat.isPrefixOf (c :: rest) then
      rep ++ replaceAllL pat rep (List.drop pat.length (c :: rest))
    else c :: replaceAllL pat rep rest
termination_by s.length
decreasing_by
  · have hp : 0 < pat.length := List.length_pos.mpr h.1
    simp only [List.length_drop, List.length_cons]
    omega
  · simp only [List.length_cons]
    omega

/-- `strings.Replace(s, pat, rep, -1)` on strings. -/
def replaceAllStr (s pat rep : String) : String :=
  String.mk (replaceAllL pat.data rep.data s.data)

/-- The parameter-substitution loop shared by `Single`, `All` and `Scalar`:
for each field of the parameter's type (Go iterates the `FieldInfos` map in
unspecified order; we iterate in field order), skip transient fields,
otherwise replace every occurrence of `:<FieldName>` by the quoted value. -/
def substituteParamsFields (fields : List FieldInfo) (vals : Entity) (sql : String) :
    Except DapperErr String :=
  fields.foldlM (fun s fi =>
    if fi.isTransient then .ok s
    else (quoteE (vals fi.fieldName)).map (fun q =>
      replaceAllStr s (":" ++ fi.fieldName) q)) sql

/-- Parameter substitution including the `if q.param != nil` guard: a nil
parameter leaves the SQL text unchanged. -/
def substituteParams (param : Option (TypeInfo × Entity)) (sql : String) :
    Except DapperErr String :=
  match param with
  | none => .ok sql
  | some pv => substituteParamsFields pv.1.fieldInfos pv.2 sql

/-! ## Query execution (src/dapper.go) -/

/-- `finder.Single` after substitution (src/dapper.go lines 252-298): run the
query; scan the first row through column reconciliation; with no rows return
`sql.ErrNoRows`.  (Association loading happens afterwards and does not
affect the zero-rows behaviour.) -/
def finderSingleScan (ti : TypeInfo) (rows : List Row) : Except DapperErr Entity :=
  match rows with
  | [] => .error .errNoRows
  | r :: _ => .ok (scanRow ti r)

/-- `getRequest.Do` (src/dapper.go lines 121-198): needs the primary key to
build the lookup query, then behaves like `Single`: zero rows is
`sql.ErrNoRows`. -/
def getDoScan (ti : TypeInfo) (rows : List Row) : Except DapperErr Entity :=
  match ti.getPrimaryKey with
  | none => .error .noPrimaryKey
  | some _ =>
    match rows with
    | [] => .error .errNoRows
    | r :: _ => .ok (scanRow ti r)

/-- `finder.Scalar` (src/dapper.go lines 622-667): `db.QueryRow(...).Scan`
stores the first column of the first row and returns `sql.ErrNoRows` when
the query matches no rows (documented `database/sql` semantics — an external
collaborator).  The result set is modelled by its first-column values. -/
def finderScalar (rows : List GoValue) : Except DapperErr GoValue :=
  match rows with
  | [] => .error .errNoRows
  | v :: _ => .ok v

/-- `Session.Count` of the superseded revision (src/dapper.go lines
1327-1337): `Scalar` into an `interface{}` destination receives the
produced value as-is; a type assertion to `int64` yields the count,
anything else is `ErrWrongType`. -/
def countOp (rows : List GoValue) : Except DapperErr Int :=
  match finderScalar rows with
  | .error e => .error e
  | .ok (.int64 n) => .ok n
  | .ok _ => .error .wrongType

/-- `strconv.ParseInt(s, 10, 64)`: an optional sign, then a non-empty run
of decimal digits, within the signed 64-bit range; anything else is a parse
error (`none`). -/
def parseInt64 (s : String) : Option Int :=
  match s.data with
  | [] => none
  | c :: rest =>
    let neg := c = '-'
    let digits := if c = '-' ∨ c = '+' then rest else c :: rest
    if digits = [] then none
    else if digits.all Char.isDigit then
      let n : Nat := digits.foldl (fun acc d => acc * 10 + (d.toNat - 48)) 0
      let v : Int := if neg then -(n : Int) else (n : Int)
      if -(2 ^ 63) ≤ v ∧ v < 2 ^ 63 then some v else none
    else none

/-- `fmt.Sprintf("%v", src)` as `database/sql`'s `asString` uses it on a
driver value: `<nil>` for nil, the string itself, decimal renderings for
the integer kinds, the carried rendering for floats and times, and
`true`/`false` for booleans.  A non-nil pointer renders as its address
(`0x...`), which never parses as a base-10 integer; the model renders it as
a fixed `0x`-prefixed placeholder since only that failure matters (a real
driver cannot produce a pointer value anyway). -/
def asStringGo : GoValue → String
  | .null => "<nil>"
  | .str s => s
  | .strPtr none => "<nil>"
  | .strPtr (some _) => "0xaddr"
  | .int n => toString n
  | .int8 n => toString n
  | .int16 n => toString n
  | .int32 n => toString n
  | .int64 n => toString n
  | .uint n => toString n
  | .uint8 n => toString n
  | .uint16 n => toString n
  | .uint32 n => toString n
  | .uint64 n => toString n
  | .intPtr none => "<nil>"
  | .intPtr (some _) => "0xaddr"
  | .int8Ptr none => "<nil>"
  | .int8Ptr (some _) => "0xaddr"
  | .int16Ptr none => "<nil>"
  | .int16Ptr (some _) => "0xaddr"
  | .int32Ptr none => "<nil>"
  | .int32Ptr (some _) => "0xaddr"
  | .int64Ptr none => "<nil>"
  | .int64Ptr (some _) => "0xaddr"
  | .uintPtr none => "<nil>"
  | .uintPtr (some _) => "0xaddr"
  | .uint8Ptr none => "<nil>"
  | .uint8Ptr (some _) => "0xaddr"
  | .uint16Ptr none => "<nil>"
  | .uint16Ptr (some _) => "0xaddr"
  | .uint32Ptr none => "<nil>"
  | .uint32Ptr (some _) => "0xaddr"
  | .uint64Ptr none => "<nil>"
  | .uint64Ptr (some _) => "0xaddr"
  | .float32 r => r
  | .float64 r => r
  | .float32Ptr none => "<nil>"
  | .float32Ptr (some _) => "0xaddr"
  | .float64Ptr none => "<nil>"
  | .float64Ptr (some _) => "0xaddr"
  | .bool b => if b then "true" else "false"
  | .boolPtr none => "<nil>"
  | .boolPtr (some _) => "0xaddr"
  | .time r => r
  | .timePtr none => "<nil>"
  | .timePtr (some _) => "0xaddr"

/-- `database/sql`'s `convertAssign` for an `*int64` destination
(`row.Scan(&count)`): an `int64` driver value is stored directly; any other
value is rendered with `asString` and parsed with
`strconv.ParseInt(s, 10, 64)`, a failure surfacing as the conversion
error. -/
def scanInt64 (v : GoValue) : Except DapperErr Int :=
  match v with
  | .int64 n => .ok n
  | w =>
    match parseInt64 (asStringGo w) with
    | some n => .ok n
    | none => .error (.otherError ("converting driver.Value to int64: " ++ asStringGo w))

/-- `Session.Count` of the current revision (src/dapper.go lines 676-683):
`Scalar` into an `int64` destination — `row.Scan` converts the produced
value via `convertAssign`, and any conversion failure is returned as-is
(`ErrWrongType` is not defined in this revision). -/
def countScanOp (rows : List GoValue) : Except DapperErr Int :=
  match finderScalar rows with
  | .error e => .error e
  | .ok v => scanInt64 v

/-! ## Batched one-to-many association resolution (src/dapper.go lines
415-569).  The symmetric one-to-one half (lines 449-490, 571-602) issues its
own queries and is not modelled; everything below is the one-to-many
portion. -/

/-- `oneToManyInfo.GetTableName` (part_005 lines 290-296): the table name of
the element type's own descriptor. -/
def oneToManyTableName (a : OneToManyInfo) : Except DapperErr String :=
  (describeType a.elemType).map (fun ti => ti.tableName)

/-- `oneToManyInfo.GetColumnName` (part_005 lines 300-317): the column of the
foreign-key field in the element type's descriptor. -/
def oneToManyColumnName (a : OneToManyInfo) : Except DapperErr String :=
  (describeType a.elemType).bind (fun ti =>
    match ti.fieldInfos.find? (fun fi => fi.fieldName == a.foreignKeyField) with
    | some fi => .ok fi.columnName
    | none => .error (.otherError
        ("dapper: no column found for field " ++ a.foreignKeyField)))

/-- `QueryByIds` (src/dapper.go lines 417-427) for the one-to-many case.
`ids` is the `IdMap`-deduplicated `Ids` list; `recordIdxs` are the indices
(into the scanned result slice) of the `Records`; `childTi` is the element
type's descriptor, which the nested `All` call recomputes from the cache. -/
structure BatchQ where
  ids : List GoValue
  columnName : String
  fieldName : String
  foreignKeyField : String
  childTi : TypeInfo
  recordIdxs : List Nat

/-- The body of the inner `for _, assocName := range q.includes` loop (lines
493-528): skip names with no one-to-many descriptor; resolve the far table
and column; create or extend the batch keyed by the far table name,
deduplicating the parent primary-key value into `ids`. -/
def stepInclude (ti : TypeInfo) (pkVal : GoValue) (k : Nat)
    (acc : List (String × BatchQ)) (name : String) :
    Except DapperErr (List (String × BatchQ)) :=
  match alookup ti.oneToManyInfos name with
  | none => .ok acc
  | some assoc =>
    (oneToManyTableName assoc).bind (fun t =>
      (oneToManyColumnName assoc).bind (fun c =>
        (describeType assoc.elemType).map (fun childTi =>
          let b := match alookup acc t with
            | none => BatchQ.mk [] c assoc.fieldName assoc.foreignKeyField childTi []
            | some b => b
          let b := if pkVal ∈ b.ids then b else { b with ids := b.ids ++ [pkVal] }
          let b := { b with recordIdxs := b.recordIdxs ++ [k] }
          aupdate acc t b)))

/-- The body of the outer record loop (lines 434-529, one-to-many part):
fetch the record's primary key — failing with `ErrNoPrimaryKey` if the type
declares none — then process every requested association name. -/
def stepRecord (ti : TypeInfo) (includes : List String)
    (acc : List (String × BatchQ)) (k : Nat) (p : Entity) :
    Except DapperErr (List (String × BatchQ)) :=
  match ti.getPrimaryKey with
  | none => .error .noPrimaryKey
  | some pk => includes.foldlM (stepInclude ti (p pk.fieldName) k) acc

/-- The outer record loop, walking the scanned result slice by index. -/
def collectGo (ti : TypeInfo) (includes : List String) (k : Nat)
    (ps : List Entity) (acc : List (String × BatchQ)) :
    Except DapperErr (List (String × BatchQ)) :=
  match ps with
  | [] => .ok acc
  | p :: rest => (stepRecord ti includes acc k p).bind (collectGo ti includes (k + 1) rest)

/-- Gathering of all one-to-many batches for a result set. -/
def collectBatches (ti : TypeInfo) (parents : List Entity) (includes : List String) :
    Except DapperErr (List (String × BatchQ)) :=
  collectGo ti includes 0 parents []

/-- `Q(table).Where().In(column, ids).Sql()` (src/unnamed/part_006): the
single batched child query `SELECT * FROM <table> WHERE <column> IN (...)`
with the quoted ids joined by commas. -/
def inQuerySql (table column : String) (ids : List GoValue) : Except DapperErr String :=
  (ids.mapM quoteE).map (fun qs =>
    "SELECT * FROM " ++ QuoteStringGo table ++ " WHERE " ++ column ++
      " IN (" ++ String.intercalate "," qs ++ ")")

/-- The inner child loop (lines 551-564): start from an empty slice and
append every child whose foreign-key field equals the parent's id. -/
def matchChildren (children : List Entity) (fkField : String) (parentId : GoValue) :
    List Entity :=
  children.foldl (fun items ch =>
    if parentId = ch fkField then items ++ [ch] else items) []

/-- One batch of the `for _, idQ := range oneToManyQueries` loop (lines
533-569): issue the batch's IN query, scan all children through the element
type's descriptor, and record — for every parent in the batch — the
assignment of its matching children to the association field. -/
def resolveBatch (ti : TypeInfo) (parents : List Entity) (db : String → List Row)
    (events : List (Nat × String × List Entity)) (tb : String × BatchQ) :
    Except DapperErr (List (Nat × String × List Entity)) :=
  (inQuerySql tb.1 tb.2.columnName tb.2.ids).bind (fun sql =>
    let children := (db sql).map (scanRow tb.2.childTi)
    match ti.getPrimaryKey with
    | none => .error (.goPanic "invalid memory address or nil pointer dereference")
    | some pk =>
      .ok (events ++ tb.2.recordIdxs.map (fun k =>
        let parentId := (parents.getD k zeroEntity) pk.fieldName
        (k, tb.2.fieldName, matchChildren children tb.2.foreignKeyField parentId))))

/-- All one-to-many batches resolved in order. -/
def resolveBatches (ti : TypeInfo) (parents : List Entity)
    (batches : List (String × BatchQ)) (db : String → List Row) :
    Except DapperErr (List (Nat × String × List Entity)) :=
  batches.foldlM (resolveBatch ti parents db) []

/-- `finder.All` (src/dapper.go lines 313-608), restricted to the one-to-many
association phase: scan every row into an entity; with no requested
associations stop there; otherwise gather the batches, issue one IN query
per batch, and compute the per-parent child assignments.  The result is the
scanned entities, the issued child-query texts, and the assignment events
`(parent index, association field, children)` in execution order. -/
def finderAll (ti : TypeInfo) (rows : List Row) (includes : List String)
    (db : String → List Row) :
    Except DapperErr (List Entity × List String × List (Nat × String × List Entity)) :=
  let parents := rows.map (scanRow ti)
  if includes.isEmpty then .ok (parents, [], [])
  else
    (collectBatches ti parents includes).bind (fun batches =>
      (batches.mapM (fun tb => inQuerySql tb.1 tb.2.columnName tb.2.ids)).bind (fun queries =>
        (resolveBatches ti parents batches db).map (fun events =>
          (parents, queries, events))))

/-- The value a parent's association field holds after resolution: the last
assignment event for this parent index and field. -/
def finalAssignment (events : List (Nat × String × List Entity)) (k : Nat) (f : String) :
    Option (List Entity) :=
  ((events.filter (fun e => e.1 == k && e.2.1 == f)).getLast?).map (fun e => e.2.2)

/-! ## Derived forms used to state the theorems -/

/-- Insertion-order deduplication, the effect of the `IdMap`/`Ids` pair:
keep the first occurrence of each element. -/
def dedupIn {α : Type} [DecidableEq α] (l : List α) : List α :=
  l.foldl (fun acc v => if v ∈ acc then acc else acc ++ [v]) []

/-- A successfully resolved one-to-many include: the far table and column
(via the element type's descriptor), the association, and the element
type's descriptor itself. -/
structure ResolvedInc where
  table : String
  column : String
  assoc : OneToManyInfo
  childTi : TypeInfo

/-- Resolution of one include name against a type: `none` when the name has
no one-to-many descriptor or when the element type's descriptor or
foreign-key column cannot be derived (in which latter case the engine
errors). -/
def resolveInc (ti : TypeInfo) (name : String) : Option ResolvedInc :=
  match alookup ti.oneToManyInfos name with
  | none => none
  | some a =>
    match describeType a.elemType with
    | .error _ => none
    | .ok cti =>
      match cti.fieldInfos.find? (fun fi => fi.fieldName == a.foreignKeyField) with
      | none => none
      | some fkfi => some ⟨cti.tableName, fkfi.columnName, a, cti⟩

/-- The pure effect of `stepInclude` once the include is resolved. -/
def stepIncludeR (pk : GoValue) (k : Nat) (acc : List (String × BatchQ))
    (r : ResolvedInc) : List (String × BatchQ) :=
  let b := match alookup acc r.table with
    | none => BatchQ.mk [] r.column r.assoc.fieldName r.assoc.foreignKeyField r.childTi []
    | some b => b
  let b := if pk ∈ b.ids then b else { b with ids := b.ids ++ [pk] }
  let b := { b with recordIdxs := b.recordIdxs ++ [k] }
  aupdate acc r.table b

/-- The pure batch gathering: for each parent primary key (indexed from `k`),
run every resolved include through `stepIncludeR`. -/
def collectPureGo (resolved : List ResolvedInc) (k : Nat) (pks : List GoValue)
    (acc : List (String × BatchQ)) : List (String × BatchQ) :=
  match pks with
  | [] => acc
  | pk :: rest => collectPureGo resolved (k + 1) rest (resolved.foldl (stepIncludeR pk k) acc)

/-- The batched child query text when every id quotes successfully. -/
def inQuerySqlD (table column : String) (ids : List GoValue) : String :=
  "SELECT * FROM " ++ QuoteStringGo table ++ " WHERE " ++ column ++
    " IN (" ++ String.intercalate "," (ids.map (fun v => (Quote v).getD "")) ++ ")"

/-- `strings.Join` on character lists, used to state what `replaceAllL` does
to the chunks of a string. -/
def joinSep (sep : List Char) : List (List Char) → List Char
  | [] => []
  | [c] => c
  | c :: cs => c ++ sep ++ joinSep sep cs

/-- The registry invariant relating `ColumnNames` to the field list:
columns are exactly the non-transient fields' column names, in field
order. -/
def colInv (ti : TypeInfo) : Prop :=
  ti.columnNames = (ti.fieldInfos.filter (fun f => !f.isTransient)).map (fun f => f.columnName)

/-- Insertion-order deduplication starting from an already-collected
prefix. -/
def dedupFrom {α : Type} [DecidableEq α] (init : List α) (l : List α) : List α :=
  l.foldl (fun acc v => if v ∈ acc then acc else acc ++ [v]) init

/-- The batch a first include occurrence creates (src/dapper.go lines
511-521). -/
def freshBatch (r : ResolvedInc) : BatchQ :=
  ⟨[], r.column, r.assoc.fieldName, r.assoc.foreignKeyField, r.childTi, []⟩

/-- The assignment events one batch produces during resolution: for each
recorded parent index, the children of the batch query matching that
parent's primary-key value. -/
def batchEvents (pkfi : FieldInfo) (parents : List Entity) (db : String → List Row)
    (tb : String × BatchQ) : List (Nat × String × List Entity) :=
  tb.2.recordIdxs.map (fun k =>
    (k, tb.2.fieldName,
      matchChildren ((db (inQuerySqlD tb.1 tb.2.columnName tb.2.ids)).map (scanRow tb.2.childTi))
        tb.2.foreignKeyField ((parents.getD k zeroEntity) pkfi.fieldName)))

/-- Well-formedness of the batch map after the first `seen.length` parents
(indices `0..seen.length-1`, primary-key values `seen`) have been
processed. -/
def Wf (resolved : List ResolvedInc) (seen : List GoValue) (acc : List (String × BatchQ)) :
    Prop :=
  acc.map Prod.fst = dedupIn (resolved.map (fun r => r.table))
  ∧ ∀ t b, alookup acc t = some b →
      b.ids = dedupIn seen
      ∧ (∀ j, j ∈ b.recordIdxs ↔ j < seen.length)
      ∧ ∃ r ∈ resolved, r.table = t ∧ b.columnName = r.column
          ∧ b.fieldName = r.assoc.fieldName ∧ b.foreignKeyField = r.assoc.foreignKeyField
          ∧ b.childTi = r.childTi

/-- The table names expected in the batch map while the current parent's
include loop has processed the prefix `done` of the resolved includes:
all tables once a previous parent completed, otherwise just the prefix's. -/
def midTables (resolved done : List ResolvedInc) (seen : List GoValue) : List String :=
  (if seen.isEmpty then [] else resolved.map (fun r => r.table)) ++ done.map (fun r => r.table)

/-- Well-formedness in the middle of one parent's include loop: `seen` are
the previous parents' primary keys, `pk` the current parent's, and `done`
the prefix of the resolved includes already folded in. -/
def WfMid (resolved : List ResolvedInc) (seen : List GoValue) (pk : GoValue)
    (done : List ResolvedInc) (acc : List (String × BatchQ)) : Prop :=
  acc.map Prod.fst = dedupIn (midTables resolved done seen)
  ∧ ∀ t b, alookup acc t = some b →
      b.ids = dedupIn (seen ++ (if t ∈ done.map (fun r => r.table) then [pk] else []))
      ∧ (∀ j, j ∈ b.recordIdxs
          ↔ (j < seen.length ∨ (j = seen.length ∧ t ∈ done.map (fun r => r.table))))
      ∧ ∃ r ∈ resolved ++ done, r.table = t ∧ b.columnName = r.column
          ∧ b.fieldName = r.assoc.fieldName ∧ b.foreignKeyField = r.assoc.foreignKeyField
          ∧ b.childTi = r.childTi

/-! ## Concrete fixture types (for the witnesses) -/

/-- A `User`-like mapped struct. -/
def userGoType : GoType :=
  .strukt [("Id", "id,primarykey,autoincrement,table=users", .basic "int64"),
           ("Name", "name", .basic "string"),
           ("Ignored", "-", .basic "string")]

/-- Its descriptor as the registry builds it. -/
def userTi : TypeInfo :=
  match describeType userGoType with
  | .ok ti => ti
  | .error _ => emptyTypeInfo userGoType

/-- An `OrderItem`-like child struct with a foreign key to `Order`. -/
def orderItemGoType : GoType :=
  .strukt [("Id", "id,primarykey,autoincrement,table=order_items", .basic "int64"),
           ("OrderId", "order_id", .basic "int64"),
           ("Qty", "qty", .basic "int")]

/-- An `Order`-like parent struct with a one-to-many association. -/
def orderGoType : GoType :=
  .strukt [("Id", "id,primarykey,autoincrement,table=orders", .basic "int64"),
           ("Items", "oneToMany=OrderId", .slice (.ptr orderItemGoType))]

/-- The parent descriptor. -/
def orderTi : TypeInfo :=
  match describeType orderGoType with
  | .ok ti => ti
  | .error _ => emptyTypeInfo orderGoType

/-- A descriptor with a table name but no primary key. -/
def noPkTi : TypeInfo :=
  { emptyTypeInfo (.basic "T") with tableName := "users" }

/-- Three `Order` result rows with primary keys 1, 2 and 1. -/
def demoRows : List Row :=
  [[("id", GoValue.int64 1)], [("id", GoValue.int64 2)], [("id", GoValue.int64 1)]]

/-- A database answering every query with one `OrderItem` row whose
foreign key points at order 1. -/
def demoDb : String → List Row :=
  fun _ => [[("id", GoValue.int64 10), ("order_id", GoValue.int64 1),
             ("qty", GoValue.int64 2)]]

/-! # Theorems -/

/-- C2: for every query matching zero rows, a single-row fetch
(`finder.Single`, `getRequest.Do`) and a scalar fetch (`finder.Scalar`) fail
with the distinguished no-rows error `sql.ErrNoRows`, while a multi-row fetch
(`finder.All`) succeeds and yields an empty sequence without error (and
issues no child queries). -/
theorem no_rows_semantics (ti : TypeInfo) (pkfi : FieldInfo) (includes : List String)
    (db : String → List Row) (hpk : ti.getPrimaryKey = some pkfi) :
    finderSingleScan ti [] = .error .errNoRows
  ∧ getDoScan ti [] = .error .errNoRows
  ∧ finderScalar [] = .error .errNoRows
  ∧ finderAll ti [] includes db = .ok ([], [], []) := by
  refine ⟨rfl, ?_, rfl, ?_⟩
  · simp [getDoScan, hpk]
  · cases includes with
    | nil => rfl
    | cons a l => rfl

/-- Witness for C2 at the `User` fixture. -/
theorem no_rows_semantics_witness :
    userTi.getPrimaryKey = some ⟨"Id", "id", .basic "int64", true, true, false⟩
  ∧ finderSingleScan userTi [] = .error .errNoRows
  ∧ getDoScan userTi [] = .error .errNoRows
  ∧ finderScalar [] = .error .errNoRows
  ∧ finderAll userTi [] ["Items"] (fun _ => []) = .ok ([], [], []) := by
  have hpk : userTi.getPrimaryKey = some ⟨"Id", "id", .basic "int64", true, true, false⟩ := rfl
  have h := no_rows_semantics userTi ⟨"Id", "id", .basic "int64", true, true, false⟩
    ["Items"] (fun _ => []) hpk
  exact ⟨hpk, h.1, h.2.1, h.2.2.1, h.2.2.2⟩

/-- C3 counterexample: `int8` is a supported-looking scalar kind (a signed
integer width) but both `Quote` variants fall through to the
unsupported-type panic on it. -/
theorem quote_int8_panics :
    Quote (GoValue.int8 1) = none
  ∧ QuoteDialect QuoteStringGo (GoValue.int8 1) = none := ⟨rfl, rfl⟩

/-- C3 (amended): `Quote` never reaches the unsupported-type panic for the
kinds its case list actually covers — all listed value and pointer forms —
and returns the literal `NULL` for a nil pointer or nil value; but `int8`
and `*int8` (and, in the engine variant, also `uint8`, `*uint8` and `*uint`)
reach the panic. -/
theorem quote_handled_kinds (v : GoValue) :
    (quoteSupported v = true → (Quote v).isSome = true)
  ∧ (quoteDialectSupported v = true → (QuoteDialect QuoteStringGo v).isSome = true)
  ∧ (quoteSupported v = true → isNilValue v = true → Quote v = some "NULL")
  ∧ (quoteDialectSupported v = true → isNilValue v = true →
      QuoteDialect QuoteStringGo v = some "NULL") := by
  cases v <;>
    first
      | (rename_i p; cases p <;>
          simp [Quote, QuoteDialect, quoteSupported, quoteDialectSupported, isNilValue])
      | simp [Quote, QuoteDialect, quoteSupported, quoteDialectSupported, isNilValue]

/-- Witness for C3's amended theorem: a nil `*int` quotes to `NULL`, and the
dialect variant handles `uint8`. -/
theorem quote_handled_kinds_witness :
    quoteSupported (GoValue.intPtr none) = true
  ∧ isNilValue (GoValue.intPtr none) = true
  ∧ Quote (GoValue.intPtr none) = some "NULL"
  ∧ quoteDialectSupported (GoValue.uint8 7) = true
  ∧ (QuoteDialect QuoteStringGo (GoValue.uint8 7)).isSome = true :=
  ⟨rfl, rfl, (quote_handled_kinds (GoValue.intPtr none)).2.2.1 rfl rfl,
   rfl, (quote_handled_kinds (GoValue.uint8 7)).2.1 rfl⟩

/-- `convertAssign` for a non-`int64` driver value goes through rendering
and base-10 parsing. -/
theorem scanInt64_conv (w : GoValue) (hw : ∀ m : Int, w ≠ GoValue.int64 m) :
    scanInt64 w = (match parseInt64 (asStringGo w) with
      | some n => .ok n
      | none => .error (.otherError ("converting driver.Value to int64: " ++ asStringGo w))) := by
  cases w
  case int64 k => exact absurd rfl (hw k)
  all_goals rfl

/-- `convertAssign` into `int64` never yields `ErrWrongType`. -/
theorem scanInt64_ne_wrongType (w : GoValue) : scanInt64 w ≠ .error .wrongType := by
  intro h
  unfold scanInt64 at h
  split at h
  · simp at h
  · split at h <;> simp at h

/-- The current `Count` never yields `ErrWrongType` on any result set. -/
theorem countScanOp_ne_wrongType (rows : List GoValue) :
    countScanOp rows ≠ .error .wrongType := by
  cases rows with
  | nil =>
    intro h
    exact DapperErr.noConfusion (Except.error.inj h)
  | cons v rest =>
    show scanInt64 v ≠ .error .wrongType
    exact scanInt64_ne_wrongType v

/-- C9 counterexample: under the current `Count` (src/dapper.go lines
676-683) a produced scalar of another type does not fail with
`WrongTypeError`: the string "42" converts and succeeds, and a boolean
fails with the `database/sql` conversion error instead. -/
theorem count_string_no_wrong_type :
    countScanOp [GoValue.str "42"] = .ok 42
  ∧ countScanOp [GoValue.str "42"] ≠ .error .wrongType
  ∧ countScanOp [GoValue.bool true]
      = .error (.otherError ("converting driver.Value to int64: "
          ++ asStringGo (GoValue.bool true)))
  ∧ countScanOp [GoValue.bool true] ≠ .error .wrongType := by
  refine ⟨?_, countScanOp_ne_wrongType _, ?_, countScanOp_ne_wrongType _⟩
  · rfl
  · rfl

/-- C9 (amended): the superseded `Count` (src/dapper.go lines 1327-1337)
asserts the produced scalar to `int64` and fails with `ErrWrongType` on any
other produced type; the current `Count` (src/dapper.go lines 676-683)
instead scans into an `int64` destination, so it succeeds on an `int64`, on
any other produced value succeeds exactly when the value's rendering parses
as a decimal 64-bit integer, and otherwise fails with the `database/sql`
conversion error — never `ErrWrongType`, which that revision does not
define. -/
theorem count_revisions (v : GoValue) (rest rest2 : List GoValue) (n : Int)
    (hv : ∀ m : Int, v ≠ GoValue.int64 m) :
    countOp (GoValue.int64 n :: rest) = .ok n
  ∧ countOp (v :: rest2) = .error .wrongType
  ∧ countScanOp (GoValue.int64 n :: rest) = .ok n
  ∧ (∀ m : Int, parseInt64 (asStringGo v) = some m → countScanOp (v :: rest2) = .ok m)
  ∧ (parseInt64 (asStringGo v) = none →
      countScanOp (v :: rest2)
        = .error (.otherError ("converting driver.Value to int64: " ++ asStringGo v)))
  ∧ ∀ rows : List GoValue, countScanOp rows ≠ .error .wrongType := by
  refine ⟨rfl, ?_, rfl, ?_, ?_, countScanOp_ne_wrongType⟩
  · cases v <;> first | rfl | exact absurd rfl (hv _)
  · intro m hm
    show scanInt64 v = .ok m
    rw [scanInt64_conv v hv, hm]
  · intro hm
    show scanInt64 v
        = .error (.otherError ("converting driver.Value to int64: " ++ asStringGo v))
    rw [scanInt64_conv v hv, hm]

/-- Witness for C9's amended theorem: counting `3` succeeds in both
revisions; a non-numeric string is `ErrWrongType` under the superseded
`Count` but a conversion error — not `ErrWrongType` — under the current
one. -/
theorem count_revisions_witness :
    (∀ m : Int, GoValue.str "x" ≠ GoValue.int64 m)
  ∧ countOp [GoValue.int64 3] = .ok 3
  ∧ countOp [GoValue.str "x"] = .error .wrongType
  ∧ countScanOp [GoValue.int64 3] = .ok 3
  ∧ parseInt64 (asStringGo (GoValue.str "x")) = none
  ∧ countScanOp [GoValue.str "x"]
      = .error (.otherError ("converting driver.Value to int64: "
          ++ asStringGo (GoValue.str "x")))
  ∧ countScanOp [GoValue.uint32 7] ≠ .error .wrongType := by
  have hv : ∀ m : Int, GoValue.str "x" ≠ GoValue.int64 m := fun m h => GoValue.noConfusion h
  have h := count_revisions (GoValue.str "x") [] [] 3 hv
  exact ⟨hv, h.1, h.2.1, h.2.2.1, rfl, h.2.2.2.2.1 rfl,
    h.2.2.2.2.2 [GoValue.uint32 7]⟩

/-- C7: every write on a type without a table name fails with
`ErrNoTableName` before any statement is handed to the database; update and
delete (and the one-to-many batching pass of `All`) on a type without a
primary key fail with `ErrNoPrimaryKey`, likewise issuing no statement and
no child query. -/
theorem no_table_no_pk_errors (ti : TypeInfo) (e : Entity) (r : Row) (rows : List Row)
    (name : String) (includes : List String) (db : String → List Row) :
    (ti.tableName = "" →
      insertOp ti e = .error .noTableName ∧
      updateOp ti e = .error .noTableName ∧
      deleteOp ti e = .error .noTableName)
  ∧ (ti.tableName ≠ "" → ti.getPrimaryKey = none →
      updateOp ti e = .error .noPrimaryKey ∧
      deleteOp ti e = .error .noPrimaryKey)
  ∧ (ti.getPrimaryKey = none →
      collectBatches ti ((r :: rows).map (scanRow ti)) (name :: includes)
        = .error .noPrimaryKey ∧
      finderAll ti (r :: rows) (name :: includes) db = .error .noPrimaryKey) := by
  refine ⟨?_, ?_, ?_⟩
  · intro h
    refine ⟨?_, ?_, ?_⟩ <;>
      simp [insertOp, updateOp, deleteOp, generateInsertSql, generateUpdateSql,
        generateDeleteSql, Except.map, h]
  · intro h1 h2
    constructor <;>
      simp [updateOp, deleteOp, generateUpdateSql, generateDeleteSql, Except.map, h1, h2]
  · intro h
    constructor <;>
      simp [finderAll, collectBatches, collectGo, stepRecord, Except.bind, h]

/-- Witness for C7 at a table-less descriptor and at `noPkTi`. -/
theorem no_table_no_pk_errors_witness :
    (emptyTypeInfo (.basic "T")).tableName = ""
  ∧ insertOp (emptyTypeInfo (.basic "T")) zeroEntity = .error .noTableName
  ∧ noPkTi.tableName ≠ ""
  ∧ noPkTi.getPrimaryKey = none
  ∧ updateOp noPkTi zeroEntity = .error .noPrimaryKey
  ∧ deleteOp noPkTi zeroEntity = .error .noPrimaryKey
  ∧ finderAll noPkTi [[("id", GoValue.int64 1)]] ["Items"] (fun _ => [])
      = .error .noPrimaryKey := by
  have he : (emptyTypeInfo (.basic "T")).tableName = "" := rfl
  have h1 := (no_table_no_pk_errors (emptyTypeInfo (.basic "T")) zeroEntity []
    [] "Items" [] (fun _ => [])).1 he
  have h2 := no_table_no_pk_errors noPkTi zeroEntity [("id", GoValue.int64 1)]
    [] "Items" [] (fun _ => [])
  have hne : noPkTi.tableName ≠ "" := by decide
  have hpk : noPkTi.getPrimaryKey = none := rfl
  exact ⟨he, h1.1, hne, hpk, (h2.2.1 hne hpk).1, (h2.2.1 hne hpk).2, (h2.2.2 hpk).2⟩

/-- `applyModifier` can only fail with a Go panic. -/
theorem applyModifier_error_shape (st : FieldInfo × Option String) (t : String)
    (e : DapperErr) (h : applyModifier st t = .error e) : ∃ msg, e = .goPanic msg := by
  unfold applyModifier at h
  cases hst : goHasPrefix t "table" with
  | false => rw [hst] at h; simp at h
  | true =>
    rw [hst] at h
    simp only [if_true] at h
    rcases hv : goSplitN2 '=' t with _ | ⟨a, _ | ⟨b, _ | ⟨c, l⟩⟩⟩ <;> rw [hv] at h <;>
      simp at h <;> exact ⟨_, h.symm⟩

/-- A `table`-prefixed token without `=` makes `applyModifier` panic. -/
theorem applyModifier_table_bad (st : FieldInfo × Option String) (t : String)
    (hpre : goHasPrefix t "table" = true) (hone : (goSplitN2 '=' t).length = 1) :
    ∃ msg, applyModifier st t = .error (.goPanic msg) := by
  unfold applyModifier
  rw [hpre]
  simp only [if_true]
  rcases hs : goSplitN2 '=' t with _ | ⟨a, _ | ⟨b, l⟩⟩
  · exact ⟨_, rfl⟩
  · exact ⟨_, rfl⟩
  · rw [hs] at hone; simp at hone

/-- The modifier loop panics whenever some token is `table`-prefixed without
an `=` (either at that token, or earlier at another such token). -/
theorem modifier_fold_table_bad (mods : List String) (st : FieldInfo × Option String)
    (t : String) (hmem : t ∈ mods) (hpre : goHasPrefix t "table" = true)
    (hone : (goSplitN2 '=' t).length = 1) :
    ∃ msg, mods.foldlM applyModifier st = .error (.goPanic msg) := by
  induction mods generalizing st with
  | nil => cases hmem
  | cons m rest ih =>
    rcases hres : applyModifier st m with e | st'
    · obtain ⟨msg, rfl⟩ := applyModifier_error_shape st m e hres
      exact ⟨msg, by rw [List.foldlM_cons, hres]; rfl⟩
    · rcases List.mem_cons.mp hmem with rfl | hmem'
      · obtain ⟨msg, hbad⟩ := applyModifier_table_bad st t hpre hone
        rw [hbad] at hres; cases hres
      · obtain ⟨msg, hrest⟩ := ih st' hmem'
        exact ⟨msg, by rw [List.foldlM_cons, hres]; exact hrest⟩

/-- C10: a dapper tag whose modifier list contains a token that begins with
`table` but contains no `=` (for example `dapper:"id,table"`) makes the
field parse — and hence `AddType` on any struct starting with such a field —
fail with an index-out-of-range Go panic instead of a `MappingError`. -/
theorem table_token_panics (fn tag : String) (typ : GoType) (t0 t : String)
    (mods : List String) (rest : List (String × String × GoType))
    (hsplit : goSplit ',' tag = t0 :: mods)
    (hmem : t ∈ mods)
    (hpre : goHasPrefix t "table" = true)
    (hone : (goSplitN2 '=' t).length = 1)
    (htag : (tag == "") = false)
    (hm1 : goHasPrefix tag "oneToMany" = false)
    (hm2 : goHasPrefix tag "oneToOne" = false)
    (hkind : skippedKind typ = false) :
    (∃ msg, parseColumnTag fn typ tag = .error (.goPanic msg))
  ∧ (∃ msg, addType (.strukt ((fn, tag, typ) :: rest)) [] = .error (.goPanic msg)) := by
  have hparse : ∃ msg, parseColumnTag fn typ tag = .error (.goPanic msg) := by
    unfold parseColumnTag
    rw [htag]
    simp only [Bool.false_eq_true, if_false, hsplit]
    exact modifier_fold_table_bad mods _ t hmem hpre hone
  refine ⟨hparse, ?_⟩
  obtain ⟨msg, hp⟩ := hparse
  refine ⟨msg, ?_⟩
  unfold addType
  simp only [List.find?_nil, Option.map_none]
  show (((fn, tag, typ) :: rest).foldlM (addTypeField (.strukt ((fn, tag, typ) :: rest)))
      (emptyTypeInfo (.strukt ((fn, tag, typ) :: rest)))).map _ = _
  rw [List.foldlM_cons]
  unfold addTypeField
  simp only [hkind, Bool.false_eq_true, if_false]
  rw [show (tag != "") = true by simp [bne, htag]]
  simp only [hm1, hm2, Bool.and_false, Bool.true_and, Bool.false_eq_true, if_false, hp]
  rfl

/-- Witness for C10 at the tag `id,table`. -/
theorem table_token_panics_witness :
    (∃ msg, parseColumnTag "Id" (.basic "int64") "id,table" = .error (.goPanic msg))
  ∧ (∃ msg, addType (.strukt [("Id", "id,table", .basic "int64")]) []
      = .error (.goPanic msg)) := by
  have hsplit : goSplit ',' "id,table" = ["id", "table"] := rfl
  have hpre : goHasPrefix "table" "table" = true := rfl
  have hone : (goSplitN2 '=' "table").length = 1 := rfl
  have htag : ("id,table" == "") = false := rfl
  have hm1 : goHasPrefix "id,table" "oneToMany" = false := rfl
  have hm2 : goHasPrefix "id,table" "oneToOne" = false := rfl
  have hkind : skippedKind (.basic "int64") = false := rfl
  exact table_token_panics "Id" "id,table" (.basic "int64") "id" "table" ["table"] []
    hsplit (by simp) hpre hone htag hm1 hm2 hkind

/-- C4: type registration is idempotent — a second `AddType` on the same type
returns the very descriptor the first call produced (and leaves the cache
unchanged) — and container types `*T`, `[]T`, `[]*T` are unwrapped to `T`
before lookup, so all four calls behave identically. -/
theorem addType_idempotent (t : GoType) (cache cache2 : TypeCache) (ti : TypeInfo)
    (h : addType t cache = .ok (ti, cache2)) :
    addType t cache2 = .ok (ti, cache2)
  ∧ addType (.ptr t) cache = addType t cache
  ∧ addType (.slice t) cache = addType t cache
  ∧ addType (.slice (.ptr t)) cache = addType t cache := by
  refine ⟨?_, rfl, rfl, rfl⟩
  simp only [addType] at h
  split at h
  case _ ti' hf =>
    injection h with h'
    injection h' with h1 h2
    subst h1; subst h2
    simp only [addType, hf]
  case _ hf =>
    split at h <;> try cases h
    case _ fields hb =>
      rw [hb] at h
      rcases hfold : fields.foldlM (addTypeField (.strukt fields)) (emptyTypeInfo (.strukt fields))
        with e | ti2 <;> rw [hfold] at h <;> simp only [Except.map] at h
      · cases h
      · injection h with h'
        injection h' with h1 h2
        subst h1
        by_cases hany : fields.any (fun f => !skippedKind f.2.2) = true
        · rw [if_pos hany] at h2
          subst h2
          simp only [addType, hb, List.find?_cons, GoType.beq_refl, Option.map_some]
          rfl
        · rw [if_neg hany] at h2
          subst h2
          rw [hb] at hf
          simp only [addType, hb, hf, hfold, Except.map]
          rw [if_neg hany]

/-- Witness for C4 at the `User` fixture. -/
theorem addType_idempotent_witness :
    addType userGoType [] = .ok (userTi, [(userGoType, userTi)])
  ∧ addType userGoType [(userGoType, userTi)] = .ok (userTi, [(userGoType, userTi)])
  ∧ addType (.ptr userGoType) [] = addType userGoType []
  ∧ addType (.slice userGoType) [] = addType userGoType []
  ∧ addType (.slice (.ptr userGoType)) [] = addType userGoType [] := by
  have h : addType userGoType [] = .ok (userTi, [(userGoType, userTi)]) := rfl
  have h2 := addType_idempotent userGoType [] [(userGoType, userTi)] userTi h
  exact ⟨h, h2.1, h2.2.1, h2.2.2.1, h2.2.2.2⟩

/-- What one successful `applyModifier` step does: the column identity fields
are untouched, `primarykey`/`pk` and `autoincrement`/`serial` or into their
flags, a non-`table` token keeps the table-name update, and a well-formed
`table=` token replaces it with the split's second part. -/
theorem applyModifier_ok (st : FieldInfo × Option String) (t : String)
    (st' : FieldInfo × Option String) (h : applyModifier st t = .ok st') :
    st'.1.fieldName = st.1.fieldName
  ∧ st'.1.columnName = st.1.columnName
  ∧ st'.1.typ = st.1.typ
  ∧ st'.1.isTransient = st.1.isTransient
  ∧ st'.1.isPrimaryKey = (st.1.isPrimaryKey || (t == "primarykey" || t == "pk"))
  ∧ st'.1.isAutoIncrement = (st.1.isAutoIncrement || (t == "autoincrement" || t == "serial"))
  ∧ (goHasPrefix t "table" = false → st'.2 = st.2)
  ∧ (goHasPrefix t "table" = true → ∀ a n, goSplitN2 '=' t = [a, n] → st'.2 = some n) := by
  unfold applyModifier at h
  cases hst : goHasPrefix t "table" with
  | false =>
    rw [hst] at h
    simp only [Bool.false_eq_true, if_false] at h
    injection h with h'
    subst h'
    refine ⟨?_, ?_, ?_, ?_, ?_, ?_, fun _ => rfl, fun htrue => ?_⟩ <;>
      first
        | (rw [hst] at htrue; cases htrue)
        | (by_cases h1 : (t == "primarykey" || t == "pk") = true <;>
            by_cases h2 : (t == "autoincrement" || t == "serial") = true <;>
            simp_all)
  | true =>
    rw [hst] at h
    simp only [if_true] at h
    rcases hv : goSplitN2 '=' t with _ | ⟨a, _ | ⟨b, _ | ⟨c, l⟩⟩⟩ <;> rw [hv] at h
    · cases h
    · cases h
    · injection h with h'
      subst h'
      refine ⟨?_, ?_, ?_, ?_, ?_, ?_, fun hfalse => ?_, fun _ a2 n2 hs => ?_⟩ <;>
        first
          | (rw [hst] at hfalse; cases hfalse)
          | (rw [hv] at hs; injection hs with hs1 hs2; injection hs2 with hs2 _;
              simp [← hs2])
          | (by_cases h1 : (t == "primarykey" || t == "pk") = true <;>
              by_cases h2 : (t == "autoincrement" || t == "serial") = true <;>
              simp_all)
    · cases h

/-- The whole modifier loop on success: identity fields preserved, each flag
is the or of the matching tokens, and the table-name update tracks the
`table=` tokens. -/
theorem modifier_fold_ok (mods : List String) (st : FieldInfo × Option String)
    (fi : FieldInfo) (ts : Option String)
    (h : mods.foldlM applyModifier st = .ok (fi, ts)) :
    fi.fieldName = st.1.fieldName
  ∧ fi.columnName = st.1.columnName
  ∧ fi.typ = st.1.typ
  ∧ fi.isTransient = st.1.isTransient
  ∧ fi.isPrimaryKey = (st.1.isPrimaryKey || mods.any (fun t => t == "primarykey" || t == "pk"))
  ∧ fi.isAutoIncrement
      = (st.1.isAutoIncrement || mods.any (fun t => t == "autoincrement" || t == "serial"))
  ∧ ((∀ t ∈ mods, goHasPrefix t "table" = false) → ts = st.2)
  ∧ (∀ t a n, mods.filter (fun t => goHasPrefix t "table") = [t] →
      goSplitN2 '=' t = [a, n] → ts = some n) := by
  induction mods generalizing st with
  | nil =>
    rw [List.foldlM_nil] at h
    injection h with h'
    subst h'
    refine ⟨rfl, rfl, rfl, rfl, by simp, by simp, fun _ => rfl, fun t a n hfil _ => ?_⟩
    simp at hfil
  | cons m rest ih =>
    rw [List.foldlM_cons] at h
    rcases hm : applyModifier st m with e | st1
    · rw [hm] at h; cases h
    · rw [hm] at h
      replace h : rest.foldlM applyModifier st1 = .ok (fi, ts) := h
      obtain ⟨e1, e2, e3, e4, e5, e6, e7, e8⟩ := applyModifier_ok st m st1 hm
      obtain ⟨f1, f2, f3, f4, f5, f6, f7, f8⟩ := ih st1 h
      refine ⟨by rw [f1, e1], by rw [f2, e2], by rw [f3, e3], by rw [f4, e4],
        ?_, ?_, ?_, ?_⟩
      · rw [f5, e5]; simp [Bool.or_assoc]
      · rw [f6, e6]; simp [Bool.or_assoc]
      · intro hall
        have hmf : goHasPrefix m "table" = false := hall m (by simp)
        rw [f7 (fun t ht => hall t (by simp [ht])), e7 hmf]
      · intro t a n hfilter hsplit
        cases hmp : goHasPrefix m "table" with
        | false =>
          rw [List.filter_cons_of_neg (by simp [hmp])] at hfilter
          exact f8 t a n hfilter hsplit
        | true =>
          rw [List.filter_cons_of_pos (by simp [hmp])] at hfilter
          injection hfilter with hmt hrest_empty
          subst hmt
          have hnone : ∀ t' ∈ rest, goHasPrefix t' "table" = false := by
            intro t' ht'
            cases hc : goHasPrefix t' "table" with
            | false => rfl
            | true =>
              have : t' ∈ rest.filter (fun t => goHasPrefix t "table") :=
                List.mem_filter.mpr ⟨ht', hc⟩
              rw [hrest_empty] at this
              cases this
          rw [f7 hnone, e8 hmp a n hsplit]

/-- C5: field-descriptor derivation follows the tag grammar — no dapper
annotation gives the field name as column name on a normal writable column;
a first token `-` makes the field transient with empty column name;
otherwise the first token is the column name, `primarykey`/`pk` sets
`IsPrimaryKey`, `autoincrement`/`serial` sets `IsAutoIncrement`, and a
`table=<name>` token sets the descriptor's table name. -/
theorem tag_grammar (fn : String) (typ : GoType) (tag t0 : String) (mods : List String)
    (fi : FieldInfo) (ts : Option String)
    (hsplit : goSplit ',' tag = t0 :: mods)
    (htag : (tag == "") = false)
    (hok : parseColumnTag fn typ tag = .ok (fi, ts)) :
    parseColumnTag fn typ "" = .ok (⟨fn, fn, typ, false, false, false⟩, none)
  ∧ fi.fieldName = fn
  ∧ fi.typ = typ
  ∧ fi.columnName = (if t0 == "-" then "" else t0)
  ∧ fi.isTransient = (t0 == "-")
  ∧ fi.isPrimaryKey = mods.any (fun t => t == "primarykey" || t == "pk")
  ∧ fi.isAutoIncrement = mods.any (fun t => t == "autoincrement" || t == "serial")
  ∧ ((∀ t ∈ mods, goHasPrefix t "table" = false) → ts = none)
  ∧ (∀ t a n, mods.filter (fun t => goHasPrefix t "table") = [t] →
      goSplitN2 '=' t = [a, n] → ts = some n)
  ∧ (skippedKind typ = false → goHasPrefix tag "oneToMany" = false →
      goHasPrefix tag "oneToOne" = false →
      describeType (.strukt [(fn, tag, typ)]) =
        .ok ⟨.strukt [(fn, tag, typ)], ts.getD "", [fn], [fi],
             if fi.isTransient then [] else [fi.columnName], [], [], []⟩) := by
  unfold parseColumnTag at hok
  rw [htag] at hok
  simp only [Bool.false_eq_true, if_false] at hok
  rw [hsplit] at hok
  replace hok : mods.foldlM applyModifier
      ((if (t0 == "-") = true then (⟨fn, "", typ, false, false, true⟩ : FieldInfo)
        else ⟨fn, t0, typ, false, false, false⟩), none) = .ok (fi, ts) := hok
  have hfold := modifier_fold_ok mods _ fi ts hok
  obtain ⟨f1, f2, f3, f4, f5, f6, f7, f8⟩ := hfold
  have hdesc : skippedKind typ = false → goHasPrefix tag "oneToMany" = false →
      goHasPrefix tag "oneToOne" = false →
      describeType (.strukt [(fn, tag, typ)]) =
        .ok ⟨.strukt [(fn, tag, typ)], ts.getD "", [fn], [fi],
             if fi.isTransient then [] else [fi.columnName], [], [], []⟩ := by
    intro hkind hm1 hm2
    have hok2 : parseColumnTag fn typ tag = .ok (fi, ts) := by
      unfold parseColumnTag
      rw [htag]
      simp only [Bool.false_eq_true, if_false]
      rw [hsplit]
      exact hok
    have hff : fi.fieldName = fn := by
      rcases ht0 : (t0 == "-") with _ | _ <;> rw [ht0] at f1 <;> simpa using f1
    have hbne : (tag != "") = true := by simp [bne, htag]
    simp only [describeType, addType, baseType, List.find?_nil, Option.map_none,
      List.foldlM_cons, List.foldlM_nil, addTypeField, hkind, Bool.false_eq_true, if_false,
      hbne, hm1, hm2, Bool.true_and, Bool.and_false, hok2, Except.map, emptyTypeInfo,
      pure, Except.pure]
    simp only [hff]
    rfl
  refine ⟨rfl, ?_, ?_, ?_, ?_, ?_, ?_, f7, f8, hdesc⟩ <;>
    rcases ht0 : (t0 == "-") with _ | _ <;> rw [ht0] at f1 f2 f3 f4 f5 f6 <;>
    simp_all

/-- Witness for C5 at the tags `id,pk,table=users` and the empty tag. -/
theorem tag_grammar_witness :
    parseColumnTag "Id" (.basic "int64") "id,pk,table=users"
      = .ok (⟨"Id", "id", .basic "int64", true, false, false⟩, some "users")
  ∧ parseColumnTag "Name" (.basic "string") ""
      = .ok (⟨"Name", "Name", .basic "string", false, false, false⟩, none)
  ∧ describeType (.strukt [("Id", "id,pk,table=users", .basic "int64")])
      = .ok ⟨.strukt [("Id", "id,pk,table=users", .basic "int64")], "users", ["Id"],
             [⟨"Id", "id", .basic "int64", true, false, false⟩], ["id"], [], [], []⟩ := by
  have hok : parseColumnTag "Id" (.basic "int64") "id,pk,table=users"
      = .ok (⟨"Id", "id", .basic "int64", true, false, false⟩, some "users") := rfl
  have hsplit : goSplit ',' "id,pk,table=users" = ["id", "pk", "table=users"] := rfl
  have htg := tag_grammar "Id" (.basic "int64") "id,pk,table=users" "id"
    ["pk", "table=users"] ⟨"Id", "id", .basic "int64", true, false, false⟩ (some "users")
    hsplit rfl hok
  have hok2 : parseColumnTag "Name" (.basic "string") "id,pk,table=users"
      = .ok (⟨"Name", "id", .basic "string", true, false, false⟩, some "users") := rfl
  have htg2 := tag_grammar "Name" (.basic "string") "id,pk,table=users" "id"
    ["pk", "table=users"] ⟨"Name", "id", .basic "string", true, false, false⟩ (some "users")
    hsplit rfl hok2
  exact ⟨hok, htg2.1, htg.2.2.2.2.2.2.2.2.2 rfl rfl rfl⟩

/-- Each `AddType` field iteration preserves `colInv`. -/
theorem addTypeField_colInv (g : GoType) (ti : TypeInfo) (f : String × String × GoType)
    (ti' : TypeInfo) (h : addTypeField g ti f = .ok ti') (hinv : colInv ti) : colInv ti' := by
  unfold addTypeField at h
  dsimp only at h
  split at h
  · injection h with h'; subst h'; exact hinv
  · split at h
    · split at h
      · rcases hel : goElem f.2.2 with e | elemT <;> rw [hel] at h
        · cases h
        · simp only [Except.map] at h
          injection h with h'
          subst h'
          exact hinv
      · cases h
    · split at h
      · split at h
        · injection h with h'
          subst h'
          exact hinv
        · cases h
      · rcases hp : parseColumnTag f.1 f.2.2 f.2.1 with e | fiu <;> rw [hp] at h
        · cases h
        · simp only [Except.map] at h
          injection h with h'
          subst h'
          unfold colInv at hinv ⊢
          simp only [List.filter_append, List.map_append, hinv]
          cases ht : fiu.1.isTransient <;> simp [List.filter_cons, ht]

/-- The field fold of `AddType` preserves `colInv`. -/
theorem addType_fold_colInv (g : GoType) (fields : List (String × String × GoType))
    (ti0 ti : TypeInfo) (h : fields.foldlM (addTypeField g) ti0 = .ok ti)
    (hinv : colInv ti0) : colInv ti := by
  induction fields generalizing ti0 with
  | nil =>
    rw [List.foldlM_nil] at h
    injection h with h'
    subst h'
    exact hinv
  | cons f rest ih =>
    rw [List.foldlM_cons] at h
    rcases hstep : addTypeField g ti0 f with e | ti1 <;> rw [hstep] at h
    · cases h
    · exact ih ti1 h (addTypeField_colInv g ti0 f ti1 hstep hinv)

/-- `describeType` either runs the field fold on the base struct type or
panics on a non-struct base type. -/
theorem describeType_cases (g : GoType) :
    (∃ fields, baseType g = .strukt fields ∧
      describeType g
        = fields.foldlM (addTypeField (.strukt fields)) (emptyTypeInfo (.strukt fields)))
  ∨ describeType g = .error (.goPanic "reflect: NumField of non-struct type") := by
  rcases hb : baseType g with fields | el | el | el | _ | _ | _ | _ | _ | nm
  case strukt =>
    left
    refine ⟨fields, rfl, ?_⟩
    simp only [describeType, addType, List.find?_nil, Option.map_none]
    rw [hb]
    rcases hfold : fields.foldlM (addTypeField (.strukt fields)) (emptyTypeInfo (.strukt fields))
      with e | ti2 <;> simp [hfold, Except.map]
  all_goals
    (right
     simp only [describeType, addType, List.find?_nil, Option.map_none]
     rw [hb]
     rfl)

/-- Every descriptor the registry builds satisfies `colInv`. -/
theorem describeType_colInv (g : GoType) (ti : TypeInfo)
    (h : describeType g = .ok ti) : colInv ti := by
  rcases describeType_cases g with ⟨fields, hb, heq⟩ | herr
  · rw [heq] at h
    exact addType_fold_colInv _ fields _ ti h rfl
  · rw [herr] at h
    cases h

/-- In a list of fields with pairwise distinct column names, looking up a
member's column name returns exactly that member. -/
theorem filter_columnName_single (l : List FieldInfo) (fi : FieldInfo)
    (hnd : (l.map (fun f => f.columnName)).Nodup) (hmem : fi ∈ l) :
    l.filter (fun f => f.columnName == fi.columnName) = [fi] := by
  induction l with
  | nil => cases hmem
  | cons g rest ih =>
    rw [List.map_cons, List.nodup_cons] at hnd
    rcases List.mem_cons.mp hmem with rfl | hmem'
    · rw [List.filter_cons_of_pos (by simp)]
      have : rest.filter (fun f => f.columnName == fi.columnName) = [] := by
        rw [List.filter_eq_nil_iff]
        intro f hf hc
        exact hnd.1 (by
          simp only [beq_iff_eq] at hc
          exact hc ▸ List.mem_map_of_mem (fun f => f.columnName) hf)
      rw [this]
    · have hne : (g.columnName == fi.columnName) = false := by
        rw [beq_eq_false_iff_ne]
        intro hc
        exact hnd.1 (hc ▸ List.mem_map_of_mem (fun f => f.columnName) hmem')
      rw [List.filter_cons_of_neg (by simp [hne])]
      exact ih hnd.2 hmem'

/-- `ColumnInfos` lookup of a non-transient member's column, under distinct
column names. -/
theorem columnInfo_lookup (ti : TypeInfo) (fi : FieldInfo)
    (hinv : colInv ti) (hnodup : ti.columnNames.Nodup)
    (hmem : fi ∈ ti.fieldInfos) (ht : fi.isTransient = false) :
    ti.columnInfo fi.columnName = some fi := by
  unfold TypeInfo.columnInfo
  have hmem' : fi ∈ ti.fieldInfos.filter (fun f => !f.isTransient) :=
    List.mem_filter.mpr ⟨hmem, by simp [ht]⟩
  have hnd : ((ti.fieldInfos.filter (fun f => !f.isTransient)).map
      (fun f => f.columnName)).Nodup := by
    rw [colInv] at hinv
    exact hinv ▸ hnodup
  have hcomm : (fun f : FieldInfo => !f.isTransient && f.columnName == fi.columnName)
      = (fun f => f.columnName == fi.columnName && !f.isTransient) := by
    funext f; rw [Bool.and_comm]
  have : ti.fieldInfos.filter (fun f => !f.isTransient && f.columnName == fi.columnName)
      = [fi] := by
    rw [hcomm, ← List.filter_filter]
    rw [filter_columnName_single _ fi hnd hmem']
  rw [this]
  rfl

/-- The column fold of `generateInsertSql` over the non-transient fields. -/
theorem insert_fold (ti : TypeInfo) (entity : Entity) (qv : String → String)
    (fs : List FieldInfo) (acc : List String × List String)
    (hlook : ∀ f ∈ fs, ti.columnInfo f.columnName = some f)
    (htr : ∀ f ∈ fs, f.isTransient = false)
    (hq : ∀ f ∈ fs, quoteE (entity f.fieldName) = .ok (qv f.fieldName)) :
    (fs.map (fun f => f.columnName)).foldlM (fun (acc : List String × List String) cname =>
      match ti.columnInfo cname with
      | some fi =>
        if !fi.isAutoIncrement || fi.isTransient then
          (quoteE (entity fi.fieldName)).map (fun q => (acc.1 ++ [cname], acc.2 ++ [q]))
        else .ok acc
      | none => .ok acc) acc
    = .ok (acc.1 ++ (fs.filter (fun f => !f.isAutoIncrement)).map (fun f => f.columnName),
           acc.2 ++ (fs.filter (fun f => !f.isAutoIncrement)).map (fun f => qv f.fieldName)) := by
  induction fs generalizing acc with
  | nil => simp [List.foldlM_nil, pure, Except.pure]
  | cons f rest ih =>
    rw [List.map_cons, List.foldlM_cons, hlook f (by simp)]
    dsimp only
    have htf : f.isTransient = false := htr f (by simp)
    cases hai : f.isAutoIncrement with
    | true =>
      simp only [htf, Bool.not_true, Bool.or_false, Bool.false_eq_true, if_false]
      rw [List.filter_cons_of_neg (by simp [hai])]
      exact ih acc (fun g hg => hlook g (by simp [hg])) (fun g hg => htr g (by simp [hg]))
        (fun g hg => hq g (by simp [hg]))
    | false =>
      simp only [Bool.not_false, Bool.true_or, if_true]
      rw [hq f (by simp)]
      simp only [Except.map]
      rw [List.filter_cons_of_pos (by simp [hai])]
      have := ih (acc.1 ++ [f.columnName], acc.2 ++ [qv f.fieldName])
        (fun g hg => hlook g (by simp [hg])) (fun g hg => htr g (by simp [hg]))
        (fun g hg => hq g (by simp [hg]))
      simpa [List.append_assoc] using this

/-- C6: for every registered type with a non-empty table name,
`generateInsertSql` produces exactly
`INSERT INTO <table> (<cols>) VALUES (<quoted vals>)` over the
non-auto-increment, non-transient columns in descriptor field order, with
every auto-increment column omitted from both lists. -/
theorem insert_sql_shape (g : GoType) (ti : TypeInfo) (entity : Entity)
    (qv : String → String)
    (hdesc : describeType g = .ok ti)
    (htbl : (ti.tableName == "") = false)
    (hnodup : ti.columnNames.Nodup)
    (hq : ∀ f ∈ ti.fieldInfos, quoteE (entity f.fieldName) = .ok (qv f.fieldName)) :
    generateInsertSql ti entity
      = .ok ("INSERT INTO " ++ QuoteStringGo ti.tableName ++ " (" ++
          String.intercalate ", " ((ti.fieldInfos.filter
            (fun f => !f.isTransient && !f.isAutoIncrement)).map (fun f => f.columnName)) ++
          ") VALUES (" ++
          String.intercalate ", " ((ti.fieldInfos.filter
            (fun f => !f.isTransient && !f.isAutoIncrement)).map (fun f => qv f.fieldName)) ++
          ")") := by
  have hinv := describeType_colInv g ti hdesc
  unfold generateInsertSql
  rw [htbl]
  simp only [Bool.false_eq_true, if_false]
  have hcols : ti.columnNames = (ti.fieldInfos.filter (fun f => !f.isTransient)).map
      (fun f => f.columnName) := hinv
  rw [hcols]
  rw [insert_fold ti entity qv (ti.fieldInfos.filter (fun f => !f.isTransient)) ([], [])
    (fun f hf => columnInfo_lookup ti f hinv hnodup (List.mem_filter.mp hf).1
      (by have := (List.mem_filter.mp hf).2; simpa using this))
    (fun f hf => by have := (List.mem_filter.mp hf).2; simpa using this)
    (fun f hf => hq f (List.mem_filter.mp hf).1)]
  simp only [Except.map, List.nil_append, List.filter_filter]
  have hfc : (fun a : FieldInfo => !a.isAutoIncrement && !a.isTransient)
      = (fun f : FieldInfo => !f.isTransient && !f.isAutoIncrement) := by
    funext a; rw [Bool.and_comm]
  rw [hfc]

/-- Witness for C6 at the `User` fixture with integer field values. -/
theorem insert_sql_shape_witness :
    describeType userGoType = .ok userTi
  ∧ (userTi.tableName == "") = false
  ∧ userTi.columnNames.Nodup
  ∧ generateInsertSql userTi (fun _ => GoValue.int64 7)
      = .ok "INSERT INTO users (name) VALUES (7)" := by
  have h1 : describeType userGoType = .ok userTi := rfl
  have h2 : (userTi.tableName == "") = false := rfl
  have h3 : userTi.columnNames.Nodup := by
    have : userTi.columnNames = ["id", "name"] := rfl
    rw [this]
    decide
  have hq : ∀ f ∈ userTi.fieldInfos,
      quoteE ((fun _ => GoValue.int64 7) f.fieldName) = .ok ((fun _ => "7") f.fieldName) :=
    fun f _ => rfl
  have hmain := insert_sql_shape userGoType userTi (fun _ => GoValue.int64 7)
    (fun _ => "7") h1 h2 h3 hq
  refine ⟨h1, h2, h3, ?_⟩
  rw [hmain]
  rfl

/-- `joinSep` pulls a shared first character out of the first chunk. -/
theorem joinSep_cons_head (sep : List Char) (c : Char) (x : List Char)
    (xs : List (List Char)) :
    joinSep sep ((c :: x) :: xs) = c :: joinSep sep (x :: xs) := by
  cases xs <;> simp [joinSep]

/-- What `strings.Replace(s, pat, rep, -1)` does: the input splits into
chunks separated by the (leftmost, non-overlapping) occurrences of `pat`,
none of the chunks contains an occurrence, and the output is the same
chunks joined with `rep` — every occurrence has been replaced. -/
theorem replaceAllL_spec (pat rep : List Char) (hp : pat ≠ []) : (s : List Char) →
    ∃ chunks : List (List Char), chunks ≠ []
      ∧ joinSep pat chunks = s
      ∧ joinSep rep chunks = replaceAllL pat rep s
      ∧ (∀ c ∈ chunks, ¬ pat <:+: c)
      ∧ chunks.headI <+: s
  | [] =>
    ⟨[[]], by simp, by simp [joinSep], by simp [joinSep, replaceAllL],
      by
        intro c hc
        simp only [List.mem_singleton] at hc
        subst hc
        simp [hp],
      by simp⟩
  | c :: rest => by
    by_cases hpre : pat.isPrefixOf (c :: rest) = true
    · obtain ⟨ch2, hne, hjp, hjr, hocc, hhead⟩ :=
        replaceAllL_spec pat rep hp (List.drop pat.length (c :: rest))
      have hps : pat <+: c :: rest := by
        rw [← List.isPrefixOf_iff_prefix]
        exact hpre
      have hsplit : pat ++ List.drop pat.length (c :: rest) = c :: rest :=
        List.prefix_iff_eq_append.mp hps
      refine ⟨[] :: ch2, by simp, ?_, ?_, ?_, ?_⟩
      · cases ch2 with
        | nil => cases hne rfl
        | cons a as =>
          show [] ++ pat ++ joinSep pat (a :: as) = c :: rest
          rw [List.nil_append, hjp]
          exact hsplit
      · cases ch2 with
        | nil => cases hne rfl
        | cons a as =>
          show [] ++ rep ++ joinSep rep (a :: as) = replaceAllL pat rep (c :: rest)
          rw [List.nil_append, hjr]
          rw [replaceAllL]
          rw [dif_pos ⟨hp, hpre⟩]
      · intro x hx
        rcases List.mem_cons.mp hx with rfl | hx'
        · intro hinf
          exact hp (List.eq_nil_of_infix_nil hinf)
        · exact hocc x hx'
      · simp
    · obtain ⟨ch2, hne, hjp, hjr, hocc, hhead⟩ := replaceAllL_spec pat rep hp rest
      obtain ⟨c0, cs, rfl⟩ : ∃ c0 cs, ch2 = c0 :: cs := by
        cases ch2 with
        | nil => cases hne rfl
        | cons a as => exact ⟨a, as, rfl⟩
      refine ⟨(c :: c0) :: cs, by simp, ?_, ?_, ?_, ?_⟩
      · rw [joinSep_cons_head, hjp]
      · rw [joinSep_cons_head, hjr]
        rw [replaceAllL]
        rw [dif_neg (by
          intro hcon
          exact absurd hcon.2 hpre)]
      · intro x hx
        rcases List.mem_cons.mp hx with rfl | hx'
        · intro hinf
          rcases List.infix_cons_iff.mp hinf with hpref | hinf'
          · have h1 : c0 <+: rest := by simpa using hhead
            have h2 : pat <+: c :: rest :=
              hpref.trans (List.cons_prefix_cons.mpr ⟨rfl, h1⟩)
            rw [← List.isPrefixOf_iff_prefix] at h2
            exact hpre h2
          · exact hocc c0 (by simp) hinf'
        · exact hocc x (by simp [hx'])
      · have h1 : c0 <+: rest := by simpa using hhead
        exact List.cons_prefix_cons.mpr ⟨rfl, h1⟩
termination_by s => s.length
decreasing_by
  · have hp0 : 0 < pat.length := List.length_pos.mpr hp
    simp only [List.length_drop, List.length_cons]
    omega
  · simp only [List.length_cons]
    omega

/-- Transient fields are skipped by the substitution loop: the result equals
substitution over the non-transient fields only. -/
theorem subst_skip_transient (fields : List FieldInfo) (vals : Entity) (sql : String) :
    substituteParamsFields fields vals sql
      = substituteParamsFields (fields.filter (fun f => !f.isTransient)) vals sql := by
  induction fields generalizing sql with
  | nil => rfl
  | cons f rest ih =>
    unfold substituteParamsFields
    cases ht : f.isTransient with
    | true =>
      rw [List.filter_cons_of_neg (by simp [ht])]
      simp only [List.foldlM_cons, ht, if_true]
      exact ih sql
    | false =>
      rcases hqv : quoteE (vals f.fieldName) with e | q <;>
        (rw [List.filter_cons_of_pos (by simp [ht])]
         simp only [List.foldlM_cons, ht, Bool.false_eq_true, if_false, hqv, Except.map])
      · rfl
      · exact ih (replaceAllStr sql (":" ++ f.fieldName) q)

/-- C8: parameter substitution leaves the SQL unchanged for a nil parameter,
runs over exactly the non-transient fields of the binding value's type, and
for each such field replaces — in `strings.Replace` fashion — every textual
occurrence of `:<FieldName>` in the SQL by the quoted field value. -/
theorem param_substitution (fields : List FieldInfo) (vals : Entity) (sql : String)
    (fi : FieldInfo) (q : String)
    (hft : fi.isTransient = false)
    (hq : quoteE (vals fi.fieldName) = .ok q) :
    substituteParams none sql = .ok sql
  ∧ (∀ pti : TypeInfo, ∀ pvals : Entity, ∀ s : String,
      substituteParams (some (pti, pvals)) s
        = substituteParamsFields (pti.fieldInfos.filter (fun f => !f.isTransient)) pvals s)
  ∧ substituteParamsFields [fi] vals sql = .ok (replaceAllStr sql (":" ++ fi.fieldName) q)
  ∧ (∃ chunks : List (List Char), chunks ≠ []
      ∧ joinSep (":" ++ fi.fieldName).data chunks = sql.data
      ∧ joinSep q.data chunks = (replaceAllStr sql (":" ++ fi.fieldName) q).data
      ∧ ∀ c ∈ chunks, ¬ (":" ++ fi.fieldName).data <:+: c) := by
  refine ⟨rfl, fun pti pvals s => subst_skip_transient pti.fieldInfos pvals s, ?_, ?_⟩
  · unfold substituteParamsFields
    rw [List.foldlM_cons]
    simp only [hft, Bool.false_eq_true, if_false, hq, Except.map]
    rfl
  · have hdata : (":" ++ fi.fieldName).data = ':' :: fi.fieldName.data := rfl
    have hp : (":" ++ fi.fieldName).data ≠ [] := by rw [hdata]; simp
    obtain ⟨chunks, h1, h2, h3, h4, _⟩ :=
      replaceAllL_spec (":" ++ fi.fieldName).data q.data hp sql.data
    exact ⟨chunks, h1, h2, h3, h4⟩

/-- Witness for `param_substitution`: a concrete non-transient `Id` field
bound to the value 7 against a concrete query. -/
theorem param_substitution_witness :
    (FieldInfo.mk "Id" "id" (.basic "int64") true true false).isTransient = false
  ∧ quoteE ((fun _ => GoValue.int64 7) "Id") = .ok "7"
  ∧ (substituteParams none "SELECT * FROM users WHERE id = :Id"
        = .ok "SELECT * FROM users WHERE id = :Id"
    ∧ (∀ pti : TypeInfo, ∀ pvals : Entity, ∀ s : String,
        substituteParams (some (pti, pvals)) s
          = substituteParamsFields (pti.fieldInfos.filter (fun f => !f.isTransient)) pvals s)
    ∧ substituteParamsFields [FieldInfo.mk "Id" "id" (.basic "int64") true true false]
          (fun _ => GoValue.int64 7) "SELECT * FROM users WHERE id = :Id"
        = .ok (replaceAllStr "SELECT * FROM users WHERE id = :Id" (":" ++ "Id") "7")
    ∧ (∃ chunks : List (List Char), chunks ≠ []
        ∧ joinSep (":" ++ "Id").data chunks = "SELECT * FROM users WHERE id = :Id".data
        ∧ joinSep "7".data chunks
            = (replaceAllStr "SELECT * FROM users WHERE id = :Id" (":" ++ "Id") "7").data
        ∧ ∀ c ∈ chunks, ¬ (":" ++ "Id").data <:+: c)) := by
  have hft : (FieldInfo.mk "Id" "id" (.basic "int64") true true false).isTransient = false := rfl
  have hq : quoteE ((fun _ => GoValue.int64 7) "Id") = .ok "7" := rfl
  exact ⟨hft, hq, param_substitution [] (fun _ => GoValue.int64 7)
    "SELECT * FROM users WHERE id = :Id" (FieldInfo.mk "Id" "id" (.basic "int64") true true false)
    "7" hft hq⟩

/-! ## Association-list and deduplication lemmas -/

/-- `find?` success on a key predicate is key membership. -/
theorem find?_key_isSome_iff_mem {α : Type} (l : List (String × α)) (k : String) :
    (l.find? (fun p => p.1 == k)).isSome = true ↔ k ∈ l.map Prod.fst := by
  cases hx : l.find? (fun p => p.1 == k) with
  | none =>
    rw [List.find?_eq_none] at hx
    simp only [Option.isSome_none, Bool.false_eq_true, false_iff]
    intro hc
    obtain ⟨p, hp, hk⟩ := List.mem_map.mp hc
    exact hx p hp (by simp [hk])
  | some p =>
    simp only [Option.isSome_some, true_iff]
    have hk : p.1 = k := by simpa using List.find?_some hx
    exact hk ▸ List.mem_map_of_mem Prod.fst (List.mem_of_find?_eq_some hx)

/-- A map lookup succeeds exactly on the stored keys. -/
theorem alookup_isSome_iff_mem {α : Type} (l : List (String × α)) (k : String) :
    (alookup l k).isSome = true ↔ k ∈ l.map Prod.fst := by
  have h : (alookup l k).isSome = (l.find? (fun p => p.1 == k)).isSome := by
    unfold alookup
    cases l.find? (fun p => p.1 == k) <;> rfl
  rw [h]
  exact find?_key_isSome_iff_mem l k

/-- The key predicate is invariant under the in-place update. -/
theorem find?_update_pred {α : Type} (l : List (String × α)) (k k' : String) (v : α) :
    List.find? (fun p => p.1 == k') (l.map (fun p => if p.1 == k then (k, v) else p))
      = (List.find? (fun p => p.1 == k') l).map
          (fun p => if p.1 == k then (k, v) else p) := by
  rw [List.find?_map]
  have hfg : ((fun p : String × α => p.1 == k') ∘ fun p => if p.1 == k then (k, v) else p)
      = fun p : String × α => p.1 == k' := by
    funext p
    simp only [Function.comp]
    by_cases hp : (p.1 == k) = true
    · have hp1 : p.1 = k := by simpa using hp
      simp [hp, hp1]
    · simp [hp]
  rw [hfg]

/-- Updating then reading the same key. -/
theorem alookup_aupdate_self {α : Type} (l : List (String × α)) (k : String) (v : α) :
    alookup (aupdate l k v) k = some v := by
  unfold aupdate
  split
  case isTrue hf =>
    unfold alookup
    rw [find?_update_pred l k k v]
    obtain ⟨p, hp⟩ := Option.isSome_iff_exists.mp hf
    rw [hp]
    have hk : p.1 = k := by simpa using List.find?_some hp
    simp [hk]
  case isFalse hf =>
    unfold alookup
    rw [List.find?_append]
    have hnone : l.find? (fun p => p.1 == k) = none := by
      cases hx : l.find? (fun p => p.1 == k)
      · rfl
      · rw [hx] at hf; simp at hf
    rw [hnone]
    simp

/-- Updating one key does not change other keys. -/
theorem alookup_aupdate_other {α : Type} (l : List (String × α)) (k k' : String) (v : α)
    (hne : k' ≠ k) : alookup (aupdate l k v) k' = alookup l k' := by
  unfold aupdate
  split
  case isTrue hf =>
    unfold alookup
    rw [find?_update_pred l k k' v]
    cases hx : l.find? (fun p => p.1 == k') with
    | none => simp
    | some p =>
      have hp1 : p.1 = k' := by simpa using List.find?_some hx
      have hknot : (p.1 == k) = false := by
        rw [beq_eq_false_iff_ne, hp1]
        exact hne
      have hpk : ¬ p.1 = k := by rw [hp1]; exact hne
      simp [hknot, hpk]
  case isFalse hf =>
    unfold alookup
    rw [List.find?_append]
    have hsingle : List.find? (fun p => p.1 == k') [(k, v)] = none := by
      have : ((k, v).1 == k') = false := by
        rw [beq_eq_false_iff_ne]
        exact Ne.symm hne
      simp [List.find?, this]
    rw [hsingle]
    cases hx : l.find? (fun p => p.1 == k') <;> simp

/-- Updating an existing key keeps the key list, a new key is appended. -/
theorem aupdate_keys {α : Type} (l : List (String × α)) (k : String) (v : α) :
    (aupdate l k v).map Prod.fst
      = if k ∈ l.map Prod.fst then l.map Prod.fst else l.map Prod.fst ++ [k] := by
  unfold aupdate
  by_cases hf : (l.find? (fun p => p.1 == k)).isSome = true
  · rw [if_pos hf, if_pos ((find?_key_isSome_iff_mem l k).mp hf)]
    rw [List.map_map]
    apply List.map_congr_left
    intro p _
    simp only [Function.comp]
    by_cases hp : (p.1 == k) = true
    · have : p.1 = k := by simpa using hp
      simp [hp, this]
    · simp [hp]
  · rw [if_neg hf]
    rw [if_neg (fun hc => hf ((find?_key_isSome_iff_mem l k).mpr hc))]
    simp

/-- `dedupIn` through `dedupFrom`. -/
theorem dedupIn_eq_dedupFrom {α : Type} [DecidableEq α] (l : List α) :
    dedupIn l = dedupFrom [] l := rfl

/-- Appending to the processed list folds one insertion step. -/
theorem dedupFrom_append {α : Type} [DecidableEq α] (init : List α) (l : List α) (v : α) :
    dedupFrom init (l ++ [v])
      = (if v ∈ dedupFrom init l then dedupFrom init l else dedupFrom init l ++ [v]) := by
  unfold dedupFrom
  rw [List.foldl_append]
  rfl

/-- Members of a deduplicated-from list. -/
theorem mem_dedupFrom {α : Type} [DecidableEq α] (init : List α) (l : List α) (v : α) :
    v ∈ dedupFrom init l ↔ v ∈ init ∨ v ∈ l := by
  induction l generalizing init with
  | nil => simp [dedupFrom]
  | cons a rest ih =>
    show v ∈ dedupFrom (if a ∈ init then init else init ++ [a]) rest ↔ _
    rw [ih]
    by_cases ha : a ∈ init
    · rw [if_pos ha]
      simp only [List.mem_cons]
      constructor
      · rintro (h | h)
        · exact Or.inl h
        · exact Or.inr (Or.inr h)
      · rintro (h | h | h)
        · exact Or.inl h
        · exact Or.inl (h ▸ ha)
        · exact Or.inr h
    · rw [if_neg ha]
      simp [List.mem_append, List.mem_cons, or_assoc]

/-- Deduplication with no new elements is the identity. -/
theorem dedupFrom_absorb {α : Type} [DecidableEq α] (init : List α) (l : List α)
    (h : ∀ v ∈ l, v ∈ init) : dedupFrom init l = init := by
  induction l with
  | nil => rfl
  | cons a rest ih =>
    show dedupFrom (if a ∈ init then init else init ++ [a]) rest = init
    rw [if_pos (h a (by simp))]
    exact ih (fun v hv => h v (by simp [hv]))

/-- Deduplicated lists have no duplicates. -/
theorem dedupFrom_nodup {α : Type} [DecidableEq α] (init : List α) (l : List α)
    (h : init.Nodup) : (dedupFrom init l).Nodup := by
  induction l generalizing init with
  | nil => exact h
  | cons a rest ih =>
    show (dedupFrom (if a ∈ init then init else init ++ [a]) rest).Nodup
    by_cases ha : a ∈ init
    · rw [if_pos ha]; exact ih init h
    · rw [if_neg ha]
      exact ih (init ++ [a]) (by simp [List.nodup_append, h, ha])

/-- The inner child loop is exactly a filter on matching foreign keys. -/
theorem matchChildren_eq_filter (children : List Entity) (fkField : String)
    (parentId : GoValue) :
    matchChildren children fkField parentId
      = children.filter (fun ch => parentId == ch fkField) := by
  unfold matchChildren
  suffices hgen : ∀ acc, children.foldl (fun items ch =>
      if parentId = ch fkField then items ++ [ch] else items) acc
      = acc ++ children.filter (fun ch => parentId == ch fkField) by
    simpa using hgen []
  induction children with
  | nil => intro acc; simp
  | cons ch rest ih =>
    intro acc
    rw [List.foldl_cons]
    by_cases hc : parentId = ch fkField
    · rw [if_pos hc, List.filter_cons_of_pos (by simp [hc]), ih]
      simp
    · rw [if_neg hc, List.filter_cons_of_neg (by simp [hc]), ih]

/-- Membership in an insertion-order deduplication. -/
theorem mem_dedupIn {α : Type} [DecidableEq α] (l : List α) (v : α) :
    v ∈ dedupIn l ↔ v ∈ l := by
  rw [dedupIn_eq_dedupFrom, mem_dedupFrom]
  simp

/-- One-step unfolding of deduplication at the end. -/
theorem dedupIn_append_one {α : Type} [DecidableEq α] (l : List α) (v : α) :
    dedupIn (l ++ [v]) = if v ∈ dedupIn l then dedupIn l else dedupIn l ++ [v] := by
  rw [dedupIn_eq_dedupFrom, dedupIn_eq_dedupFrom, dedupFrom_append]

/-- Insertion-order deduplication yields no duplicates. -/
theorem dedupIn_nodup {α : Type} [DecidableEq α] (l : List α) : (dedupIn l).Nodup := by
  rw [dedupIn_eq_dedupFrom]
  exact dedupFrom_nodup [] l List.nodup_nil

/-- Splitting a deduplication over an append. -/
theorem dedupFrom_append_full {α : Type} [DecidableEq α] (init l1 l2 : List α) :
    dedupFrom init (l1 ++ l2) = dedupFrom (dedupFrom init l1) l2 := by
  unfold dedupFrom
  rw [List.foldl_append]

/-- Deduplicating a list against itself twice changes nothing. -/
theorem dedupIn_self_append {α : Type} [DecidableEq α] (l : List α) :
    dedupIn (l ++ l) = dedupIn l := by
  rw [dedupIn_eq_dedupFrom, dedupFrom_append_full, ← dedupIn_eq_dedupFrom]
  exact dedupFrom_absorb (dedupIn l) l (fun v hv => (mem_dedupIn l v).mpr hv)

/-- A failing lookup is absence from the keys. -/
theorem alookup_none_iff {α : Type} (l : List (String × α)) (k : String) :
    alookup l k = none ↔ k ∉ l.map Prod.fst := by
  constructor
  · intro h hc
    have hs := (alookup_isSome_iff_mem l k).mpr hc
    rw [h] at hs
    simp at hs
  · intro hc
    cases hx : alookup l k with
    | none => rfl
    | some b =>
      exact absurd ((alookup_isSome_iff_mem l k).mp (by rw [hx]; rfl)) hc

/-- In a map with distinct keys, every stored pair is found by lookup. -/
theorem alookup_of_mem_nodup {α : Type} (l : List (String × α)) (tb : String × α)
    (hn : (l.map Prod.fst).Nodup) (hm : tb ∈ l) : alookup l tb.1 = some tb.2 := by
  induction l with
  | nil => cases hm
  | cons hd tl ih =>
    rw [List.map_cons, List.nodup_cons] at hn
    rcases List.mem_cons.mp hm with heq | hmem
    · subst heq
      unfold alookup
      rw [@List.find?_cons_of_pos (String × α) (fun p => p.1 == tb.1) tb tl (by simp)]
      rfl
    · have hne : ¬ (hd.1 == tb.1) = true := by
        intro hc
        have h1 : hd.1 = tb.1 := by simpa using hc
        exact hn.1 (h1 ▸ List.mem_map_of_mem Prod.fst hmem)
      have hskip : alookup (hd :: tl) tb.1 = alookup tl tb.1 := by
        unfold alookup
        rw [@List.find?_cons_of_neg (String × α) (fun p => p.1 == tb.1) hd tl hne]
      rw [hskip]
      exact ih hn.2 hmem

/-- An include name with no one-to-many descriptor is skipped by the
include loop. -/
theorem stepInclude_skip (ti : TypeInfo) (pk : GoValue) (k : Nat)
    (acc : List (String × BatchQ)) (name : String)
    (h : alookup ti.oneToManyInfos name = none) :
    stepInclude ti pk k acc name = .ok acc := by
  unfold stepInclude
  rw [h]

/-- An include name with no one-to-many descriptor resolves to nothing. -/
theorem resolveInc_none_of_no_assoc (ti : TypeInfo) (name : String)
    (h : alookup ti.oneToManyInfos name = none) : resolveInc ti name = none := by
  unfold resolveInc
  rw [h]

/-- Inversion of a successful include resolution. -/
theorem resolveInc_inv (ti : TypeInfo) (name : String) (r : ResolvedInc)
    (h : resolveInc ti name = some r) :
    alookup ti.oneToManyInfos name = some r.assoc
    ∧ describeType r.assoc.elemType = .ok r.childTi
    ∧ r.table = r.childTi.tableName
    ∧ ∃ fkfi, r.childTi.fieldInfos.find?
          (fun fi => fi.fieldName == r.assoc.foreignKeyField) = some fkfi
        ∧ r.column = fkfi.columnName := by
  unfold resolveInc at h
  split at h
  next => cases h
  next a ha =>
    split at h
    next e hd => cases h
    next cti hd =>
      split at h
      next hf => cases h
      next fkfi hf =>
        injection h with h
        subst h
        exact ⟨ha, hd, rfl, fkfi, hf, rfl⟩

/-- A resolvable include runs through the include-loop body as the pure
batch-map update `stepIncludeR`. -/
theorem stepInclude_resolved (ti : TypeInfo) (pk : GoValue) (k : Nat)
    (acc : List (String × BatchQ)) (name : String) (r : ResolvedInc)
    (h : resolveInc ti name = some r) :
    stepInclude ti pk k acc name = .ok (stepIncludeR pk k acc r) := by
  obtain ⟨ha, hd, ht, fkfi, hf, hc⟩ := resolveInc_inv ti name r h
  unfold stepInclude
  rw [ha]
  have hT : oneToManyTableName r.assoc = .ok r.childTi.tableName := by
    unfold oneToManyTableName
    rw [hd]
    rfl
  have hC : oneToManyColumnName r.assoc = .ok fkfi.columnName := by
    unfold oneToManyColumnName
    rw [hd]
    show (match r.childTi.fieldInfos.find?
        (fun fi => fi.fieldName == r.assoc.foreignKeyField) with
      | some fi => Except.ok fi.columnName
      | none => Except.error (DapperErr.otherError
          ("dapper: no column found for field " ++ r.assoc.foreignKeyField))) = _
    rw [hf]
  simp only [hT, hC, hd]
  rw [← ht, ← hc]
  rfl

/-- The include loop over one parent, when every requested name is either
absent from the one-to-many descriptors or fully resolvable, is the pure
fold of `stepIncludeR` over the resolved includes. -/
theorem fold_stepInclude (ti : TypeInfo) (pk : GoValue) (k : Nat) :
    ∀ (includes : List String) (acc : List (String × BatchQ)),
    includes.all (fun name =>
      (alookup ti.oneToManyInfos name).isNone || (resolveInc ti name).isSome) = true →
    includes.foldlM (stepInclude ti pk k) acc
      = .ok ((includes.filterMap (resolveInc ti)).foldl (stepIncludeR pk k) acc) := by
  intro includes
  induction includes with
  | nil => intro acc h; rfl
  | cons name rest ih =>
    intro acc hres
    rw [List.all_cons, Bool.and_eq_true] at hres
    obtain ⟨h1, h2⟩ := hres
    rw [List.foldlM_cons]
    cases hri : resolveInc ti name with
    | none =>
      have hnone : alookup ti.oneToManyInfos name = none := by
        rw [hri] at h1
        simp only [Option.isSome_none, Bool.or_false] at h1
        exact Option.isNone_iff_eq_none.mp h1
      rw [stepInclude_skip ti pk k acc name hnone, List.filterMap_cons_none hri]
      exact ih acc h2
    | some r =>
      rw [stepInclude_resolved ti pk k acc name r hri, List.filterMap_cons_some hri]
      exact ih (stepIncludeR pk k acc r) h2

/-- The outer record loop, when the type has a primary key and every
include is absent or resolvable, is the pure batch gathering over the
parents' primary-key values. -/
theorem collectGo_eq (ti : TypeInfo) (pkfi : FieldInfo) (includes : List String)
    (hpk : ti.getPrimaryKey = some pkfi)
    (hres : includes.all (fun name =>
      (alookup ti.oneToManyInfos name).isNone || (resolveInc ti name).isSome) = true) :
    ∀ (ps : List Entity) (k : Nat) (acc : List (String × BatchQ)),
    collectGo ti includes k ps acc
      = .ok (collectPureGo (includes.filterMap (resolveInc ti)) k
          (ps.map (fun p => p pkfi.fieldName)) acc) := by
  intro ps
  induction ps with
  | nil => intro k acc; rfl
  | cons p rest ih =>
    intro k acc
    show (stepRecord ti includes acc k p).bind (collectGo ti includes (k + 1) rest) = _
    unfold stepRecord
    rw [hpk]
    show (includes.foldlM (stepInclude ti (p pkfi.fieldName) k) acc).bind
        (collectGo ti includes (k + 1) rest) = _
    rw [fold_stepInclude ti (p pkfi.fieldName) k includes acc hres]
    show collectGo ti includes (k + 1) rest _ = _
    rw [ih]
    rfl

/-- `midTables` before any parent completed. -/
theorem midTables_nil (resolved done : List ResolvedInc) :
    midTables resolved done [] = done.map (fun x => x.table) := rfl

/-- `midTables` after at least one parent completed. -/
theorem midTables_ne_nil (resolved done : List ResolvedInc) (seen : List GoValue)
    (h : seen ≠ []) :
    midTables resolved done seen
      = resolved.map (fun x => x.table) ++ done.map (fun x => x.table) := by
  unfold midTables
  cases seen with
  | nil => exact absurd rfl h
  | cons s ss => rfl

/-- A batch under a key other than the one being updated keeps its
invariant when the processed prefix grows. -/
theorem batch_transport (resolved : List ResolvedInc) (seen : List GoValue) (pk : GoValue)
    (done : List ResolvedInc) (r : ResolvedInc) (t : String) (b : BatchQ)
    (hne : t ≠ r.table)
    (h : b.ids = dedupIn (seen ++ (if t ∈ done.map (fun x => x.table) then [pk] else []))
      ∧ (∀ j, j ∈ b.recordIdxs
          ↔ (j < seen.length ∨ (j = seen.length ∧ t ∈ done.map (fun x => x.table))))
      ∧ ∃ r0 ∈ resolved ++ done, r0.table = t ∧ b.columnName = r0.column
          ∧ b.fieldName = r0.assoc.fieldName ∧ b.foreignKeyField = r0.assoc.foreignKeyField
          ∧ b.childTi = r0.childTi) :
    b.ids = dedupIn (seen ++ (if t ∈ (done ++ [r]).map (fun x => x.table) then [pk] else []))
    ∧ (∀ j, j ∈ b.recordIdxs
        ↔ (j < seen.length ∨ (j = seen.length ∧ t ∈ (done ++ [r]).map (fun x => x.table))))
    ∧ ∃ r0 ∈ resolved ++ (done ++ [r]), r0.table = t ∧ b.columnName = r0.column
        ∧ b.fieldName = r0.assoc.fieldName ∧ b.foreignKeyField = r0.assoc.foreignKeyField
        ∧ b.childTi = r0.childTi := by
  obtain ⟨h1, h2, r0, hr0, hrest⟩ := h
  have hcond : (t ∈ (done ++ [r]).map (fun x => x.table))
      ↔ t ∈ done.map (fun x => x.table) := by
    rw [List.map_append]
    simp [hne]
  refine ⟨?_, ?_, r0, ?_, hrest⟩
  · rw [h1, if_congr hcond rfl rfl]
  · intro j
    rw [h2 j, hcond]
  · rcases List.mem_append.mp hr0 with hx | hx
    · exact List.mem_append_left _ hx
    · exact List.mem_append_right _ (List.mem_append_left _ hx)

/-- One include-loop body step preserves the mid-loop invariant. -/
theorem stepIncludeR_wfMid (resolved : List ResolvedInc) (seen : List GoValue)
    (pk : GoValue) (done : List ResolvedInc) (acc : List (String × BatchQ))
    (r : ResolvedInc) (hr : r ∈ resolved)
    (h : WfMid resolved seen pk done acc) :
    WfMid resolved seen pk (done ++ [r]) (stepIncludeR pk seen.length acc r) := by
  obtain ⟨hkeys, hbatch⟩ := h
  have hdt : (done ++ [r]).map (fun x => x.table)
      = done.map (fun x => x.table) ++ [r.table] := by
    rw [List.map_append]
    rfl
  have hmidt : midTables resolved (done ++ [r]) seen
      = midTables resolved done seen ++ [r.table] := by
    unfold midTables
    rw [hdt, ← List.append_assoc]
  have hRmem : r.table ∈ (done ++ [r]).map (fun x => x.table) := by
    rw [hdt]
    simp
  cases hl : alookup acc r.table with
  | none =>
    have hnotmem : r.table ∉ acc.map Prod.fst := (alookup_none_iff acc r.table).mp hl
    have hseen : seen = [] := by
      by_contra hne
      apply hnotmem
      rw [hkeys, mem_dedupIn, midTables_ne_nil resolved done seen hne]
      exact List.mem_append_left _ (List.mem_map_of_mem _ hr)
    have hdone : r.table ∉ done.map (fun x => x.table) := by
      intro hc
      apply hnotmem
      rw [hkeys, mem_dedupIn, hseen, midTables_nil]
      exact hc
    have hstep : stepIncludeR pk seen.length acc r
        = aupdate acc r.table
            ⟨[pk], r.column, r.assoc.fieldName, r.assoc.foreignKeyField, r.childTi,
              [seen.length]⟩ := by
      unfold stepIncludeR
      rw [hl]
      dsimp only
      rw [if_neg (List.not_mem_nil pk)]
      rfl
    rw [hstep]
    refine ⟨?_, ?_⟩
    · rw [aupdate_keys, if_neg hnotmem, hkeys, hmidt, dedupIn_append_one,
        if_neg (fun hc => ?_)]
      rw [mem_dedupIn, hseen, midTables_nil] at hc
      exact hdone hc
    · intro t b hb
      by_cases hteq : t = r.table
      · subst hteq
        rw [alookup_aupdate_self] at hb
        injection hb with hb
        subst hb
        refine ⟨?_, ?_, r, ?_, rfl, rfl, rfl, rfl, rfl⟩
        · rw [if_pos hRmem, hseen]
          simp [dedupIn]
        · intro j
          rw [hseen]
          simp [hRmem]
        · exact List.mem_append_right _ (List.mem_append_right _ (by simp))
      · rw [alookup_aupdate_other acc r.table t _ hteq] at hb
        exact batch_transport resolved seen pk done r t b hteq (hbatch t b hb)
  | some b0 =>
    have hmem0 : r.table ∈ acc.map Prod.fst :=
      (alookup_isSome_iff_mem acc r.table).mp (by rw [hl]; rfl)
    obtain ⟨hi0, hrec0, hmeta0⟩ := hbatch r.table b0 hl
    have hkeyeq : ∀ B, (aupdate acc r.table B).map Prod.fst
        = dedupIn (midTables resolved (done ++ [r]) seen) := by
      intro B
      rw [aupdate_keys, if_pos hmem0, hkeys, hmidt, dedupIn_append_one,
        if_pos (hkeys ▸ hmem0)]
    have hidsnew : (if pk ∈ b0.ids then b0.ids else b0.ids ++ [pk])
        = dedupIn (seen ++ [pk]) := by
      by_cases hdone0 : r.table ∈ done.map (fun x => x.table)
      · rw [if_pos hdone0] at hi0
        have hpkmem : pk ∈ b0.ids := by
          rw [hi0, mem_dedupIn]
          simp
        rw [if_pos hpkmem, hi0]
      · rw [if_neg hdone0, List.append_nil] at hi0
        by_cases hpkmem : pk ∈ b0.ids
        · rw [if_pos hpkmem, hi0, dedupIn_append_one,
            if_pos (by rw [← hi0]; exact hpkmem)]
        · rw [if_neg hpkmem, hi0, dedupIn_append_one,
            if_neg (by rw [← hi0]; exact hpkmem)]
    have hrecnew : ∀ j, j ∈ b0.recordIdxs ++ [seen.length]
        ↔ (j < seen.length
            ∨ (j = seen.length ∧ r.table ∈ (done ++ [r]).map (fun x => x.table))) := by
      intro j
      rw [List.mem_append, hrec0 j]
      constructor
      · rintro ((hj | ⟨hj, _⟩) | hj)
        · exact Or.inl hj
        · exact Or.inr ⟨hj, hRmem⟩
        · exact Or.inr ⟨by simpa using hj, hRmem⟩
      · rintro (hj | ⟨hj, _⟩)
        · exact Or.inl (Or.inl hj)
        · exact Or.inr (by simp [hj])
    have hmetanew : ∃ r0 ∈ resolved ++ (done ++ [r]), r0.table = r.table
        ∧ b0.columnName = r0.column ∧ b0.fieldName = r0.assoc.fieldName
        ∧ b0.foreignKeyField = r0.assoc.foreignKeyField ∧ b0.childTi = r0.childTi := by
      obtain ⟨r0, hr0, hrest⟩ := hmeta0
      refine ⟨r0, ?_, hrest⟩
      rcases List.mem_append.mp hr0 with hx | hx
      · exact List.mem_append_left _ hx
      · exact List.mem_append_right _ (List.mem_append_left _ hx)
    by_cases hmem : pk ∈ b0.ids
    · have hstep : stepIncludeR pk seen.length acc r
          = aupdate acc r.table { b0 with recordIdxs := b0.recordIdxs ++ [seen.length] } := by
        unfold stepIncludeR
        rw [hl]
        dsimp only
        rw [if_pos hmem]
      rw [hstep]
      refine ⟨hkeyeq _, ?_⟩
      intro t b hb
      by_cases hteq : t = r.table
      · subst hteq
        rw [alookup_aupdate_self] at hb
        injection hb with hb
        subst hb
        refine ⟨?_, hrecnew, hmetanew⟩
        show b0.ids = _
        rw [if_pos hRmem, ← hidsnew, if_pos hmem]
      · rw [alookup_aupdate_other acc r.table t _ hteq] at hb
        exact batch_transport resolved seen pk done r t b hteq (hbatch t b hb)
    · have hstep : stepIncludeR pk seen.length acc r
          = aupdate acc r.table
              { b0 with ids := b0.ids ++ [pk],
                        recordIdxs := b0.recordIdxs ++ [seen.length] } := by
        unfold stepIncludeR
        rw [hl]
        dsimp only
        rw [if_neg hmem]
      rw [hstep]
      refine ⟨hkeyeq _, ?_⟩
      intro t b hb
      by_cases hteq : t = r.table
      · subst hteq
        rw [alookup_aupdate_self] at hb
        injection hb with hb
        subst hb
        refine ⟨?_, hrecnew, hmetanew⟩
        show b0.ids ++ [pk] = _
        rw [if_pos hRmem, ← hidsnew, if_neg hmem]
      · rw [alookup_aupdate_other acc r.table t _ hteq] at hb
        exact batch_transport resolved seen pk done r t b hteq (hbatch t b hb)

/-- The include loop over one parent preserves the mid-loop invariant. -/
theorem foldl_stepIncludeR_wfMid (resolved : List ResolvedInc) (seen : List GoValue)
    (pk : GoValue) :
    ∀ (rs done : List ResolvedInc) (acc : List (String × BatchQ)),
    (∀ x ∈ rs, x ∈ resolved) →
    WfMid resolved seen pk done acc →
    WfMid resolved seen pk (done ++ rs) (rs.foldl (stepIncludeR pk seen.length) acc) := by
  intro rs
  induction rs with
  | nil =>
    intro done acc hsub h
    rw [List.append_nil]
    exact h
  | cons x rest ih =>
    intro done acc hsub h
    have h1 := stepIncludeR_wfMid resolved seen pk done acc x (hsub x (by simp)) h
    have h2 := ih (done ++ [x]) _ (fun y hy => hsub y (by simp [hy])) h1
    rw [List.append_cons done x rest]
    exact h2

/-- Processing one full parent establishes the post-parent invariant, from
scratch or from the invariant after the previous parents. -/
theorem parent_step_wf (resolved : List ResolvedInc) (seen : List GoValue)
    (pk : GoValue) (acc : List (String × BatchQ))
    (h : (seen = [] ∧ acc = []) ∨ (seen ≠ [] ∧ Wf resolved seen acc)) :
    Wf resolved (seen ++ [pk]) (resolved.foldl (stepIncludeR pk seen.length) acc) := by
  have hmid : WfMid resolved seen pk [] acc := by
    rcases h with ⟨hs, ha⟩ | ⟨hs, hkeys, hbatch⟩
    · subst hs
      subst ha
      refine ⟨rfl, ?_⟩
      intro t b hb
      cases hb
    · refine ⟨?_, ?_⟩
      · rw [hkeys, midTables_ne_nil resolved [] seen hs]
        simp
      · intro t b hb
        obtain ⟨h1, h2, h3⟩ := hbatch t b hb
        refine ⟨by simpa using h1, ?_, ?_⟩
        · intro j
          rw [h2 j]
          simp
        · obtain ⟨r0, hr0, hrest⟩ := h3
          exact ⟨r0, by simpa using hr0, hrest⟩
  have hfin := foldl_stepIncludeR_wfMid resolved seen pk resolved [] acc (fun x hx => hx) hmid
  rw [List.nil_append] at hfin
  obtain ⟨hkeys, hbatch⟩ := hfin
  have htabs : dedupIn (midTables resolved resolved seen)
      = dedupIn (resolved.map (fun x => x.table)) := by
    by_cases hs : seen = []
    · rw [hs, midTables_nil]
    · rw [midTables_ne_nil resolved resolved seen hs, dedupIn_self_append]
  refine ⟨?_, ?_⟩
  · rw [hkeys, htabs]
  · intro t b hb
    obtain ⟨h1, h2, h3⟩ := hbatch t b hb
    have htmem : t ∈ resolved.map (fun x => x.table) := by
      have hm := (alookup_isSome_iff_mem _ t).mp (by rw [hb]; rfl)
      rw [hkeys, htabs, mem_dedupIn] at hm
      exact hm
    refine ⟨?_, ?_, ?_⟩
    · rw [h1, if_pos htmem]
    · intro j
      rw [h2 j, List.length_append]
      simp [Nat.lt_succ_iff_lt_or_eq, htmem]
    · obtain ⟨r0, hr0, hrest⟩ := h3
      rcases List.mem_append.mp hr0 with hx | hx
      · exact ⟨r0, hx, hrest⟩
      · exact ⟨r0, hx, hrest⟩

/-- The pure batch gathering over the remaining parents preserves the
invariant state. -/
theorem collectPureGo_wf (resolved : List ResolvedInc) :
    ∀ (pks seen : List GoValue) (acc : List (String × BatchQ)),
    ((seen = [] ∧ acc = []) ∨ (seen ≠ [] ∧ Wf resolved seen acc)) →
    ((seen ++ pks = [] ∧ collectPureGo resolved seen.length pks acc = [])
      ∨ (seen ++ pks ≠ []
          ∧ Wf resolved (seen ++ pks) (collectPureGo resolved seen.length pks acc))) := by
  intro pks
  induction pks with
  | nil =>
    intro seen acc h
    rcases h with ⟨hs, ha⟩ | ⟨hs, hw⟩
    · subst hs
      subst ha
      exact Or.inl ⟨rfl, rfl⟩
    · refine Or.inr ⟨by simpa using hs, ?_⟩
      rw [List.append_nil]
      exact hw
  | cons pk rest ih =>
    intro seen acc h
    have hW : Wf resolved (seen ++ [pk]) (resolved.foldl (stepIncludeR pk seen.length) acc) :=
      parent_step_wf resolved seen pk acc h
    have hnext := ih (seen ++ [pk]) (resolved.foldl (stepIncludeR pk seen.length) acc)
      (Or.inr ⟨by simp, hW⟩)
    rcases hnext with ⟨hc, _⟩ | ⟨hne, hw⟩
    · exact absurd hc (by simp)
    · refine Or.inr ⟨by simp, ?_⟩
      rw [List.append_cons seen pk rest]
      rw [List.length_append] at hw
      exact hw

/-- Quoting a list of values all of supported kinds succeeds. -/
theorem mapM_quoteE_ok :
    ∀ (ids : List GoValue), (∀ v ∈ ids, (Quote v).isSome = true) →
    ids.mapM quoteE = .ok (ids.map (fun v => (Quote v).getD "")) := by
  intro ids
  induction ids with
  | nil => intro h; rfl
  | cons v rest ih =>
    intro h
    have hv : quoteE v = .ok ((Quote v).getD "") := by
      unfold quoteE
      cases hq : Quote v with
      | none =>
        have hs := h v (by simp)
        rw [hq] at hs
        simp at hs
      | some s => rfl
    rw [List.mapM_cons, hv, ih (fun x hx => h x (by simp [hx]))]
    rfl

/-- The batched IN query succeeds, with the text `inQuerySqlD`, whenever
every id quotes. -/
theorem inQuerySql_ok (t c : String) (ids : List GoValue)
    (h : ∀ v ∈ ids, (Quote v).isSome = true) :
    inQuerySql t c ids = .ok (inQuerySqlD t c ids) := by
  unfold inQuerySql inQuerySqlD
  rw [mapM_quoteE_ok ids h]
  rfl

/-- Issuing every batch query succeeds when every batch's ids quote. -/
theorem mapM_inQuery_ok :
    ∀ (batches : List (String × BatchQ)),
    (∀ tb ∈ batches, ∀ v ∈ tb.2.ids, (Quote v).isSome = true) →
    batches.mapM (fun tb => inQuerySql tb.1 tb.2.columnName tb.2.ids)
      = .ok (batches.map (fun tb => inQuerySqlD tb.1 tb.2.columnName tb.2.ids)) := by
  intro batches
  induction batches with
  | nil => intro h; rfl
  | cons tb rest ih =>
    intro h
    rw [List.mapM_cons, inQuerySql_ok tb.1 tb.2.columnName tb.2.ids (h tb (by simp)),
      ih (fun x hx => h x (by simp [hx]))]
    rfl

/-- Resolving one batch: one IN query, then one assignment event per
recorded parent. -/
theorem resolveBatch_ok (ti : TypeInfo) (pkfi : FieldInfo) (parents : List Entity)
    (db : String → List Row) (events : List (Nat × String × List Entity))
    (tb : String × BatchQ)
    (hpk : ti.getPrimaryKey = some pkfi)
    (hq : inQuerySql tb.1 tb.2.columnName tb.2.ids
        = .ok (inQuerySqlD tb.1 tb.2.columnName tb.2.ids)) :
    resolveBatch ti parents db events tb
      = .ok (events ++ batchEvents pkfi parents db tb) := by
  unfold resolveBatch
  rw [hq]
  show (match ti.getPrimaryKey with
    | none => Except.error (DapperErr.goPanic "invalid memory address or nil pointer dereference")
    | some pk => Except.ok (events ++ tb.2.recordIdxs.map (fun k =>
        (k, tb.2.fieldName,
          matchChildren
            ((db (inQuerySqlD tb.1 tb.2.columnName tb.2.ids)).map (scanRow tb.2.childTi))
            tb.2.foreignKeyField ((parents.getD k zeroEntity) pk.fieldName))))) = _
  rw [hpk]
  rfl

/-- Resolving all batches in order concatenates their event lists. -/
theorem resolveBatches_ok (ti : TypeInfo) (pkfi : FieldInfo) (parents : List Entity)
    (db : String → List Row) (hpk : ti.getPrimaryKey = some pkfi) :
    ∀ (batches : List (String × BatchQ)) (events : List (Nat × String × List Entity)),
    (∀ tb ∈ batches, ∀ v ∈ tb.2.ids, (Quote v).isSome = true) →
    batches.foldlM (resolveBatch ti parents db) events
      = .ok (events ++ (batches.map (batchEvents pkfi parents db)).flatten) := by
  intro batches
  induction batches with
  | nil =>
    intro events h
    simp only [List.map_nil, List.flatten_nil, List.append_nil]
    rfl
  | cons tb rest ih =>
    intro events h
    rw [List.foldlM_cons,
      resolveBatch_ok ti pkfi parents db events tb hpk
        (inQuerySql_ok tb.1 tb.2.columnName tb.2.ids (h tb (by simp)))]
    have hih := ih (events ++ batchEvents pkfi parents db tb)
      (fun x hx => h x (by simp [hx]))
    rw [List.map_cons, List.flatten_cons, ← List.append_assoc]
    exact hih

/-- C1: in a multi-row fetch (`finder.All`) over parents requesting
one-to-many associations — the type declaring a primary key, at least one
row scanned, every requested include either unknown to the one-to-many
descriptors or fully resolvable, and every parent primary-key value
quotable — association resolution issues exactly one child query per
distinct child table: the batch list is keyed by the deduplicated child
table names without repetition; each batch's query reads
`SELECT * FROM <child table> WHERE <foreign-key column> IN (...)` over the
deduplicated parent primary-key values; every parent index is recorded in
every batch; and the assignment events give each recorded parent, on the
association field, exactly those scanned children whose foreign-key field
equals that parent's primary-key value. -/
theorem batched_one_to_many (ti : TypeInfo) (pkfi : FieldInfo) (rows : List Row)
    (includes : List String) (db : String → List Row)
    (parents : List Entity) (resolved : List ResolvedInc) (pks : List GoValue)
    (hparents : parents = rows.map (scanRow ti))
    (hresolved : resolved = includes.filterMap (resolveInc ti))
    (hpks : pks = parents.map (fun p => p pkfi.fieldName))
    (hpk : ti.getPrimaryKey = some pkfi)
    (hrows : rows ≠ [])
    (hinc : includes ≠ [])
    (hres : includes.all (fun name =>
        (alookup ti.oneToManyInfos name).isNone || (resolveInc ti name).isSome) = true)
    (hquote : ∀ v ∈ pks, (Quote v).isSome = true) :
    ∃ batches : List (String × BatchQ),
      finderAll ti rows includes db
        = .ok (parents,
            batches.map (fun tb => inQuerySqlD tb.1 tb.2.columnName tb.2.ids),
            (batches.map (batchEvents pkfi parents db)).flatten)
      ∧ batches.map Prod.fst = dedupIn (resolved.map (fun r => r.table))
      ∧ (batches.map Prod.fst).Nodup
      ∧ ∀ tb ∈ batches,
          tb.2.ids = dedupIn pks
          ∧ inQuerySqlD tb.1 tb.2.columnName tb.2.ids
              = "SELECT * FROM " ++ QuoteStringGo tb.1 ++ " WHERE " ++ tb.2.columnName
                  ++ " IN (" ++ String.intercalate ","
                      ((dedupIn pks).map (fun v => (Quote v).getD "")) ++ ")"
          ∧ (∃ r ∈ resolved, r.table = tb.1 ∧ tb.2.columnName = r.column
              ∧ tb.2.fieldName = r.assoc.fieldName
              ∧ tb.2.foreignKeyField = r.assoc.foreignKeyField ∧ tb.2.childTi = r.childTi)
          ∧ (∀ j, j ∈ tb.2.recordIdxs ↔ j < parents.length)
          ∧ batchEvents pkfi parents db tb
              = tb.2.recordIdxs.map (fun k =>
                  (k, tb.2.fieldName,
                    ((db (inQuerySqlD tb.1 tb.2.columnName tb.2.ids)).map
                        (scanRow tb.2.childTi)).filter
                      (fun ch =>
                        (parents.getD k zeroEntity) pkfi.fieldName
                          == ch tb.2.foreignKeyField))) := by
  have hpksne : pks ≠ [] := by
    cases rows with
    | nil => exact absurd rfl hrows
    | cons r rs =>
      rw [hpks, hparents]
      intro hc
      simp at hc
  have hwf : Wf resolved pks (collectPureGo resolved 0 pks []) := by
    have h := collectPureGo_wf resolved pks [] [] (Or.inl ⟨rfl, rfl⟩)
    rw [List.nil_append] at h
    rcases h with ⟨hc, _⟩ | ⟨_, hw⟩
    · exact absurd hc hpksne
    · exact hw
  obtain ⟨hkeys, hbatch⟩ := hwf
  have hkeysN : ((collectPureGo resolved 0 pks []).map Prod.fst).Nodup := by
    rw [hkeys]
    exact dedupIn_nodup _
  have hcollect : collectBatches ti parents includes
      = .ok (collectPureGo resolved 0 pks []) := by
    rw [hparents]
    show collectGo ti includes 0 (rows.map (scanRow ti)) [] = _
    rw [collectGo_eq ti pkfi includes hpk hres (rows.map (scanRow ti)) 0 [],
      hresolved, hpks, hparents]
  have hqB : ∀ tb ∈ collectPureGo resolved 0 pks [], ∀ v ∈ tb.2.ids,
      (Quote v).isSome = true := by
    intro tb htb v hv
    have hlook := alookup_of_mem_nodup (collectPureGo resolved 0 pks []) tb hkeysN htb
    obtain ⟨hids, _, _⟩ := hbatch tb.1 tb.2 hlook
    rw [hids, mem_dedupIn] at hv
    exact hquote v hv
  have hmapq := mapM_inQuery_ok (collectPureGo resolved 0 pks []) hqB
  have hresolve := resolveBatches_ok ti pkfi (rows.map (scanRow ti)) db hpk
    (collectPureGo resolved 0 pks []) [] hqB
  rw [← hparents] at hresolve
  have hE : includes.isEmpty = false := by
    cases includes with
    | nil => exact absurd rfl hinc
    | cons i is => rfl
  refine ⟨collectPureGo resolved 0 pks [], ?_, hkeys, hkeysN, ?_⟩
  · simp only [finderAll, hE, Bool.false_eq_true, if_false]
    rw [← hparents, hcollect]
    show Except.bind
        ((collectPureGo resolved 0 pks []).mapM
          (fun tb => inQuerySql tb.1 tb.2.columnName tb.2.ids))
        (fun queries =>
          ((collectPureGo resolved 0 pks []).foldlM
              (resolveBatch ti parents db) []).map
            (fun events => (parents, queries, events))) = _
    rw [hmapq, hresolve]
    rfl
  · intro tb htb
    have hlook := alookup_of_mem_nodup (collectPureGo resolved 0 pks []) tb hkeysN htb
    obtain ⟨hids, hrec, hmeta⟩ := hbatch tb.1 tb.2 hlook
    refine ⟨hids, ?_, hmeta, ?_, ?_⟩
    · rw [hids]
      rfl
    · intro j
      rw [hrec j, hpks, List.length_map]
    · unfold batchEvents
      apply List.map_congr_left
      intro k hk
      rw [matchChildren_eq_filter, hparents]

/-- Witness for `batched_one_to_many`: three `Order` parents with primary
keys 1, 2 and 1 requesting the `Items` one-to-many association. -/
theorem batched_one_to_many_witness :
    orderTi.getPrimaryKey
      = some (FieldInfo.mk "Id" "id" (GoType.basic "int64") true true false)
  ∧ (∀ v ∈ (demoRows.map (scanRow orderTi)).map
        (fun p => p (FieldInfo.mk "Id" "id" (GoType.basic "int64") true true false).fieldName),
      (Quote v).isSome = true)
  ∧ (∃ batches : List (String × BatchQ),
      finderAll orderTi demoRows ["Items"] demoDb
        = .ok (demoRows.map (scanRow orderTi),
            batches.map (fun tb => inQuerySqlD tb.1 tb.2.columnName tb.2.ids),
            (batches.map (batchEvents
              (FieldInfo.mk "Id" "id" (GoType.basic "int64") true true false)
              (demoRows.map (scanRow orderTi)) demoDb)).flatten)
      ∧ batches.map Prod.fst
          = dedupIn ((["Items"].filterMap (resolveInc orderTi)).map (fun r => r.table))
      ∧ (batches.map Prod.fst).Nodup
      ∧ ∀ tb ∈ batches,
          tb.2.ids = dedupIn ((demoRows.map (scanRow orderTi)).map
            (fun p => p (FieldInfo.mk "Id" "id" (GoType.basic "int64") true true false).fieldName))
          ∧ inQuerySqlD tb.1 tb.2.columnName tb.2.ids
              = "SELECT * FROM " ++ QuoteStringGo tb.1 ++ " WHERE " ++ tb.2.columnName
                  ++ " IN (" ++ String.intercalate ","
                      ((dedupIn ((demoRows.map (scanRow orderTi)).map
                          (fun p => p (FieldInfo.mk "Id" "id" (GoType.basic "int64")
                            true true false).fieldName))).map
                        (fun v => (Quote v).getD "")) ++ ")"
          ∧ (∃ r ∈ ["Items"].filterMap (resolveInc orderTi), r.table = tb.1
              ∧ tb.2.columnName = r.column
              ∧ tb.2.fieldName = r.assoc.fieldName
              ∧ tb.2.foreignKeyField = r.assoc.foreignKeyField ∧ tb.2.childTi = r.childTi)
          ∧ (∀ j, j ∈ tb.2.recordIdxs ↔ j < (demoRows.map (scanRow orderTi)).length)
          ∧ batchEvents (FieldInfo.mk "Id" "id" (GoType.basic "int64") true true false)
              (demoRows.map (scanRow orderTi)) demoDb tb
              = tb.2.recordIdxs.map (fun k =>
                  (k, tb.2.fieldName,
                    ((demoDb (inQuerySqlD tb.1 tb.2.columnName tb.2.ids)).map
                        (scanRow tb.2.childTi)).filter
                      (fun ch =>
                        ((demoRows.map (scanRow orderTi)).getD k zeroEntity)
                            (FieldInfo.mk "Id" "id" (GoType.basic "int64")
                              true true false).fieldName
                          == ch tb.2.foreignKeyField)))) := by
  refine ⟨rfl, by decide, ?_⟩
  exact batched_one_to_many orderTi
    (FieldInfo.mk "Id" "id" (GoType.basic "int64") true true false)
    demoRows ["Items"] demoDb
    (demoRows.map (scanRow orderTi))
    (["Items"].filterMap (resolveInc orderTi))
    ((demoRows.map (scanRow orderTi)).map
      (fun p => p (FieldInfo.mk "Id" "id" (GoType.basic "int64") true true false).fieldName))
    rfl rfl rfl rfl (by simp [demoRows]) (by simp) rfl (by decide)

end Dapper
